import Mathlib

/-!
Verification of the pygbm histogram-based tree-growth engine and its
gradient-boosting front end.

The repository provides `pygbm/gradient_boosting.py` (parameter validation,
fit orchestration, prediction dispatch, `_update_raw_predictions`) and
`tests/test_grower.py`.  The grower module itself (`pygbm/grower.py`, with its
histogram builder, split finder and node state machine) is not part of the
provided sources, so it is modelled here from the specification (its data
model in spec sections 3 and 4, its state machine in section 4.3), with the
repository's own `tests/test_grower.py` pinning the observable behaviour of
the modelled parts.
-/

namespace Pygbm

/-- Modelled from the spec: `SplitInfo` (spec section 3) — candidate decision
at a node: `feature_idx`, `bin_idx` (samples with bin ≤ bin_idx go left),
`gain`, plus the left/right aggregate statistics implied by the cut, carried
so child nodes can be initialized without rescanning histograms. -/
structure SplitInfo where
  gain : ℚ
  feature_idx : ℕ
  bin_idx : ℕ
  gradient_left : ℚ
  hessian_left : ℚ
  n_samples_left : ℕ
  gradient_right : ℚ
  hessian_right : ℚ
  n_samples_right : ℕ
deriving DecidableEq, Inhabited

/-- Modelled from the spec: the grower's configuration (spec section 6):
`max_bins`/`n_bins`, nullable `max_leaf_nodes` and `max_depth`,
`min_samples_leaf`, `l2_regularization`, `shrinkage`, `min_gain_to_split`.
`eps` is the tiny epsilon the spec adds to every hessian denominator
(spec sections 4.2 and 7). -/
structure GrowerParams where
  n_bins : ℕ
  max_leaf_nodes : Option ℕ
  max_depth : Option ℕ
  min_samples_leaf : ℕ
  l2_regularization : ℚ
  min_gain_to_split : ℚ
  shrinkage : ℚ
  eps : ℚ
deriving DecidableEq

/-- Modelled from the spec: the grower's input (spec section 6) — a
discretized feature matrix (per-sample, per-feature integer bin codes), a
per-sample gradient vector and a per-sample (or constant, modelled as a
constant function) hessian vector.  Floating-point values are embedded as
rationals. -/
structure TrainingData where
  n_samples : ℕ
  n_features : ℕ
  binned : ℕ → ℕ → ℕ
  gradient : ℕ → ℚ
  hessian : ℕ → ℚ

/-- Add one sample (gradient `g`, hessian `h`) to bin `b` of a per-feature
histogram represented as a list of `(sum_gradients, sum_hessians, count)`
triples indexed by bin. -/
def histBump (g h : ℚ) : ℕ → List (ℚ × ℚ × ℕ) → List (ℚ × ℚ × ℕ)
  | _, [] => []
  | 0, e :: rest => (e.1 + g, e.2.1 + h, e.2.2 + 1) :: rest
  | b + 1, e :: rest => e :: histBump g h b rest

/-- Modelled from the spec: the Histogram Builder (spec section 4.1) — a
single pass over the node's samples; for each sample, increment the bin
bucket of the feature at the sample's discretized code, accumulating
`(sum_gradients, sum_hessians, count)` per bin. -/
def build_histogram (d : TrainingData) (p : GrowerParams) (idx : List ℕ)
    (f : ℕ) : List (ℚ × ℚ × ℕ) :=
  idx.foldl (fun h i => histBump (d.gradient i) (d.hessian i) (d.binned i f) h)
    (List.replicate p.n_bins (0, 0, 0))

/-- Modelled from the spec: the regularized gain of a candidate cut
(spec section 4.2):
`gain = G_left^2/(H_left + l2) + G_right^2/(H_right + l2) - G_total^2/(H_total + l2)`,
with the tiny epsilon added to every hessian denominator. -/
def split_gain (p : GrowerParams) (gl hl gr hr gTot hTot : ℚ) : ℚ :=
  gl * gl / (hl + p.l2_regularization + p.eps)
    + gr * gr / (hr + p.l2_regularization + p.eps)
    - gTot * gTot / (hTot + p.l2_regularization + p.eps)

/-- Modelled from the spec: the per-feature scan of the Split Finder
(spec section 4.2) — walk bins left to right accumulating running left sums
(the right side is the node total minus the running left sum); emit a
candidate at every cut where both sides have at least `min_samples_leaf`
samples.  `b` is the bin index of the head of `hist`; `gl`, `hl`, `nl` are
the sums accumulated over the bins before it. -/
def scanBins (p : GrowerParams) (f : ℕ) (gTot hTot : ℚ) (n : ℕ) :
    List (ℚ × ℚ × ℕ) → ℕ → ℚ → ℚ → ℕ → List SplitInfo
  | [], _, _, _, _ => []
  | e :: rest, b, gl, hl, nl =>
    let gl1 := gl + e.1
    let hl1 := hl + e.2.1
    let nl1 := nl + e.2.2
    let tail := scanBins p f gTot hTot n rest (b + 1) gl1 hl1 nl1
    if p.min_samples_leaf ≤ nl1 ∧ p.min_samples_leaf ≤ n - nl1 then
      { gain := split_gain p gl1 hl1 (gTot - gl1) (hTot - hl1) gTot hTot,
        feature_idx := f, bin_idx := b,
        gradient_left := gl1, hessian_left := hl1, n_samples_left := nl1,
        gradient_right := gTot - gl1, hessian_right := hTot - hl1,
        n_samples_right := n - nl1 } :: tail
    else tail

/-- All candidate splits of one feature of a node. -/
def featureCandidates (d : TrainingData) (p : GrowerParams) (idx : List ℕ)
    (gTot hTot : ℚ) (n : ℕ) (f : ℕ) : List SplitInfo :=
  scanBins p f gTot hTot n (build_histogram d p idx f) 0 0 0 0

/-- All candidate splits of a node, features in ascending order. -/
def nodeCandidates (d : TrainingData) (p : GrowerParams) (idx : List ℕ)
    (gTot hTot : ℚ) (n : ℕ) : List SplitInfo :=
  (List.range d.n_features).foldr
    (fun f acc => featureCandidates d p idx gTot hTot n f ++ acc) []

/-- Keep the candidate with the strictly larger gain; on ties keep the
earlier one, so that scanning features then bins in ascending order breaks
ties by lowest `feature_idx` then lowest `bin_idx` (spec section 4.2). -/
def betterSplit (a c : SplitInfo) : SplitInfo :=
  if a.gain < c.gain then c else a

/-- Modelled from the spec: the Split Finder (spec section 4.2) — the best
cut across all features of a node, or `none` when every cut is rejected
(the "-inf sentinel" case). -/
def find_node_split (d : TrainingData) (p : GrowerParams) (idx : List ℕ)
    (gTot hTot : ℚ) (n : ℕ) : Option SplitInfo :=
  (nodeCandidates d p idx gTot hTot n).foldl
    (fun best c =>
      match best with
      | none => some c
      | some a => some (betterSplit a c)) none

/-- Modelled from the spec: a growth-time tree node (spec section 3):
owned `sample_indices`, `depth` (root = 0), aggregated `sum_gradients` /
`sum_hessians`, the optional best `split_info`, the finalized `value` and
`weight` (set only when the node becomes a leaf), and child links (indices
into the grower's node arena, spec section 9). -/
structure TreeNode where
  sample_indices : List ℕ
  depth : ℕ
  sum_gradients : ℚ
  sum_hessians : ℚ
  split_info : Option SplitInfo
  value : Option ℚ
  weight : Option ℚ
  left_child : Option ℕ
  right_child : Option ℕ
deriving DecidableEq

instance : Inhabited TreeNode :=
  ⟨{ sample_indices := [], depth := 0, sum_gradients := 0, sum_hessians := 0,
     split_info := none, value := none, weight := none,
     left_child := none, right_child := none }⟩

/-- Modelled from the spec: the finalized leaf value (spec section 3):
`value = -shrinkage * sum_gradients / (sum_hessians + l2_regularization + eps)`.
This is the prediction contribution consumed by the outer loop; the same
formula (with `-learning_rate` as the shrinkage) appears in the provided
source at `gradient_boosting.py` line 272. -/
def leaf_value (p : GrowerParams) (g h : ℚ) : ℚ :=
  -p.shrinkage * g / (h + p.l2_regularization + p.eps)

/-- Modelled from the spec: the node's `weight` attribute, the quantity the
repository's own test observes (`tests/test_grower.py` lines 129-131: a leaf
whose gradients are all -1 has `weight ≈ -shrinkage`, which forces
`weight = shrinkage * sum_gradients / (sum_hessians + l2_regularization + eps)`,
the negation of the spec's `value` formula). -/
def leaf_weight (p : GrowerParams) (g h : ℚ) : ℚ :=
  p.shrinkage * g / (h + p.l2_regularization + p.eps)

/-- Modelled from the spec: finalizing a node into a leaf (spec section 4.3
transition 4) — assign its `value` (and `weight`) using the shrinkage
formula; finalized nodes are never revisited. -/
def finalize_leaf (p : GrowerParams) (nd : TreeNode) : TreeNode :=
  { nd with
    value := some (leaf_value p nd.sum_gradients nd.sum_hessians),
    weight := some (leaf_weight p nd.sum_gradients nd.sum_hessians) }

/-- Sum of the gradients over a set of sample indices. -/
def gradSum (d : TrainingData) (idx : List ℕ) : ℚ :=
  idx.foldl (fun a i => a + d.gradient i) 0

/-- Sum of the hessians over a set of sample indices. -/
def hessSum (d : TrainingData) (idx : List ℕ) : ℚ :=
  idx.foldl (fun a i => a + d.hessian i) 0

/-- Modelled from the spec: the grower's state (spec section 4.3):
an arena of nodes addressed by index (spec section 9), the ids of the
currently `splittable` nodes (kept in insertion order; the priority choice
is made at pop time) and the ids of the `finalized` leaves. -/
structure GrowerState where
  nodes : List TreeNode
  splittable_nodes : List ℕ
  finalized_leaves : List ℕ
deriving DecidableEq

/-- The gain a splittable node was enqueued with. -/
def nodeGain (s : GrowerState) (id : ℕ) : ℚ :=
  match (s.nodes.getD id default).split_info with
  | some si => si.gain
  | none => 0

/-- Modelled from the spec: the max-priority choice over splittable nodes,
keyed by `split_info.gain`, ties broken deterministically by insertion
order (spec section 4.3 step 2). -/
def selectBest (s : GrowerState) : Option ℕ :=
  s.splittable_nodes.foldl
    (fun best id =>
      match best with
      | none => some id
      | some b => if nodeGain s b < nodeGain s id then some id else some b)
    none

/-- Modelled from the spec: deciding the fate of a freshly created node
(spec section 4.3 transitions 1 and 4): a node whose depth has reached
`max_depth` is finalized; otherwise its best split is computed and the node
is finalized when there is no valid split or its gain is below
`min_gain_to_split`, else it becomes splittable.  Returns the updated node
and whether it is splittable. -/
def processNode (d : TrainingData) (p : GrowerParams) (nd : TreeNode) :
    TreeNode × Bool :=
  if (match p.max_depth with
      | some md => decide (md ≤ nd.depth)
      | none => false) then
    (finalize_leaf p nd, false)
  else
    match find_node_split d p nd.sample_indices nd.sum_gradients
        nd.sum_hessians nd.sample_indices.length with
    | none => (finalize_leaf p nd, false)
    | some si =>
      if si.gain < p.min_gain_to_split then
        (finalize_leaf p { nd with split_info := some si }, false)
      else ({ nd with split_info := some si }, true)

/-- Modelled from the spec: grower initialization (spec section 4.3
transition 1): the root is created owning all sample indices, its histogram
and best split are evaluated, and it becomes splittable if a valid split
exists, else immediately finalized.  A `max_leaf_nodes` cap of at most one
leaf finalizes the root directly. -/
def initGrower (d : TrainingData) (p : GrowerParams) : GrowerState :=
  let idx := List.range d.n_samples
  let root : TreeNode :=
    { sample_indices := idx, depth := 0,
      sum_gradients := gradSum d idx, sum_hessians := hessSum d idx,
      split_info := none, value := none, weight := none,
      left_child := none, right_child := none }
  if (match p.max_leaf_nodes with
      | some m => decide (m ≤ 1)
      | none => false) then
    { nodes := [finalize_leaf p root], splittable_nodes := [],
      finalized_leaves := [0] }
  else
    let pr := processNode d p root
    { nodes := [pr.1],
      splittable_nodes := if pr.2 then [0] else [],
      finalized_leaves := if pr.2 then [] else [0] }

/-- Finalize every node in `ids` inside the arena. -/
def finalizeMany (p : GrowerParams) (nodes : List TreeNode) :
    List ℕ → List TreeNode
  | [] => nodes
  | id :: rest =>
    finalizeMany p (nodes.set id (finalize_leaf p (nodes.getD id default)))
      rest

/-- The left part of a split's partition: samples whose code on the split
feature is at most `bin_idx` (spec section 3). -/
def leftIndices (d : TrainingData) (si : SplitInfo) (idx : List ℕ) : List ℕ :=
  idx.filter (fun i => d.binned i si.feature_idx ≤ si.bin_idx)

/-- The right part of a split's partition: the remaining samples. -/
def rightIndices (d : TrainingData) (si : SplitInfo) (idx : List ℕ) : List ℕ :=
  idx.filter (fun i => ¬ d.binned i si.feature_idx ≤ si.bin_idx)

/-- A freshly created child node (spec section 4.3 step 3): depth one below
the parent, initialized from the split's aggregates. -/
def childNode (dep : ℕ) (samples : List ℕ) (g h : ℚ) : TreeNode :=
  { sample_indices := samples, depth := dep,
    sum_gradients := g, sum_hessians := h,
    split_info := none, value := none, weight := none,
    left_child := none, right_child := none }

/-- The arena after a split: the parent gains its child links, the two
children are appended at ids `s.nodes.length` and `s.nodes.length + 1`. -/
def arenaAfterSplit (d : TrainingData) (s : GrowerState) (pid : ℕ)
    (si : SplitInfo) : List TreeNode :=
  let parent := s.nodes.getD pid default
  (s.nodes.set pid
    { parent with left_child := some s.nodes.length,
                  right_child := some (s.nodes.length + 1) })
    ++ [childNode (parent.depth + 1) (leftIndices d si parent.sample_indices)
          si.gradient_left si.hessian_left,
        childNode (parent.depth + 1) (rightIndices d si parent.sample_indices)
          si.gradient_right si.hessian_right]

/-- Whether applying one more split reaches the `max_leaf_nodes` cap: the
count of finalized leaves plus remaining splittable nodes plus the two new
children (spec section 4.3, stopping conditions). -/
def capReached (p : GrowerParams) (s : GrowerState) (pid : ℕ) : Bool :=
  match p.max_leaf_nodes with
  | some m =>
    decide (m ≤ s.finalized_leaves.length
      + (s.splittable_nodes.filter (fun id => id ≠ pid)).length + 2)
  | none => false

/-- The state produced by applying the split `si` at node `pid` (the body
of `split_next` once the popped node is known). -/
def splitApplied (d : TrainingData) (p : GrowerParams) (s : GrowerState)
    (pid : ℕ) (si : SplitInfo) : GrowerState × ℕ × ℕ :=
  let lid := s.nodes.length
  let rid := s.nodes.length + 1
  let nodes1 := arenaAfterSplit d s pid si
  let queue1 := s.splittable_nodes.filter (fun id => id ≠ pid)
  if capReached p s pid then
    ({ nodes := finalizeMany p nodes1 (lid :: rid :: queue1),
       splittable_nodes := [],
       finalized_leaves := s.finalized_leaves ++ lid :: rid :: queue1 },
      lid, rid)
  else
    let lpr := processNode d p (nodes1.getD lid default)
    let rpr := processNode d p (nodes1.getD rid default)
    ({ nodes := (nodes1.set lid lpr.1).set rid rpr.1,
       splittable_nodes :=
         queue1 ++ (if lpr.2 then [lid] else [])
           ++ (if rpr.2 then [rid] else []),
       finalized_leaves :=
         s.finalized_leaves ++ (if lpr.2 then [] else [lid])
           ++ (if rpr.2 then [] else [rid]) },
      lid, rid)

/-- Modelled from the spec: `split_next()` (spec section 4.3 step 3) — pop
the highest-gain splittable node, partition its `sample_indices` into
left/right subsets by the chosen `(feature_idx, bin_idx)` (left = code ≤
bin_idx), create the two children (initialized from the split's left/right
aggregates), remove the parent from the splittable set permanently, then
either (a) when `max_leaf_nodes` is reached by the count of finalized
leaves plus splittable nodes plus the two children, finalize both children
and every remaining splittable node (growth stops), or (b) compute each
child's histogram and best split and classify it as splittable or
finalized.  Returns the new state and the two child ids, or `none` when no
splittable node remains. -/
def split_next (d : TrainingData) (p : GrowerParams) (s : GrowerState) :
    Option (GrowerState × ℕ × ℕ) :=
  match selectBest s with
  | none => none
  | some pid =>
    match (s.nodes.getD pid default).split_info with
    | none => none
    | some si => some (splitApplied d p s pid si)

/-- Modelled from the spec: `can_split_further()` — growth can continue
while the splittable set is nonempty (spec section 4.3). -/
def can_split_further (s : GrowerState) : Bool :=
  ¬ s.splittable_nodes.isEmpty

/-- One growth step: apply `split_next` when possible, else leave the state
unchanged. -/
def growStep (d : TrainingData) (p : GrowerParams) (s : GrowerState) :
    GrowerState :=
  match split_next d p s with
  | none => s
  | some r => r.1

/-- Iterated growth steps. -/
def growSteps (d : TrainingData) (p : GrowerParams) :
    ℕ → GrowerState → GrowerState
  | 0, s => s
  | k + 1, s => growSteps d p k (growStep d p s)

/-- The sequence of `(feature_idx, bin_idx)` splits applied by the first `k`
calls to `split_next`, in order — the observable "sequence of splits" of a
grown tree. -/
def growTrace (d : TrainingData) (p : GrowerParams) :
    ℕ → GrowerState → List (ℕ × ℕ)
  | 0, _ => []
  | k + 1, s =>
    match split_next d p s with
    | none => []
    | some r =>
      (match (s.nodes.getD ((selectBest s).getD 0) default).split_info with
       | some si => [(si.feature_idx, si.bin_idx)]
       | none => []) ++ growTrace d p k r.1

/-- The discretized row of sample `i`: its bin code on every feature. -/
def rowVec (d : TrainingData) (i : ℕ) : List ℕ :=
  (List.range d.n_features).map (fun f => d.binned i f)

/-- The number of distinct discretized rows among a set of sample indices —
"the number of distinct bin values available" to separate them. -/
def distinctRows (d : TrainingData) (idx : List ℕ) : ℕ :=
  (idx.map (rowVec d)).toFinset.card

/-- Termination measure of a grower state: splittable nodes weighted by the
number of distinct rows they could still separate. -/
def growMeasure (d : TrainingData) (s : GrowerState) : ℕ :=
  (s.splittable_nodes.map
    (fun id => distinctRows d (s.nodes.getD id default).sample_indices - 1)).sum

/-- All the data's bin codes lie below `n_bins` (the discretizer's contract,
spec section 2: codes in `[0, max_bins)`). -/
def WellBinned (d : TrainingData) (p : GrowerParams) : Prop :=
  ∀ i ∈ List.range d.n_samples, ∀ f, d.binned i f < p.n_bins

/-- The concrete scenario dataset (spec section 8): 10,000 samples, 2
integer features with bin codes in `[0, 10)` (11 bin levels configured, as
in `tests/test_grower.py` which draws codes from `[0, n_bins - 1)`), target
`f(x) = -1 if x0 <= 5 else (-1 if x1 <= 3 else +1)`, gradients equal to the
target, constant hessian 1.  The matrix is instantiated concretely with
every `(x0, x1)` code pair in `[0,10) × [0,10)` appearing exactly 100 times:
sample `i` has `x0 = i / 1000` and `x1 = i / 100 % 10`. -/
def scenarioData : TrainingData :=
  { n_samples := 10000, n_features := 2,
    binned := fun i f => if f = 0 then i / 1000 else i / 100 % 10,
    gradient := fun i =>
      if i / 1000 ≤ 5 then -1 else if i / 100 % 10 ≤ 3 then -1 else 1,
    hessian := fun _ => 1 }

/-- The scenario configuration (spec section 8): 11 bins, `max_leaf_nodes =
3`, `shrinkage = 0.5`, and the positive split-gain threshold 0.01 under
which the pure left child is finalized (the value `tests/test_grower.py`
uses for `min_gain_to_split`); `min_samples_leaf` is the documented default
20, `l2_regularization` 0. -/
def scenarioParams : GrowerParams :=
  { n_bins := 11, max_leaf_nodes := some 3, max_depth := none,
    min_samples_leaf := 20, l2_regularization := 0,
    min_gain_to_split := 1/100, shrinkage := 1/2, eps := 0 }

/-- Scenario state after initialization (root evaluated). -/
def scenS0 : GrowerState := initGrower scenarioData scenarioParams

/-- Scenario state after the first `split_next`. -/
def scenS1 : GrowerState := growStep scenarioData scenarioParams scenS0

/-- Scenario state after the second `split_next`. -/
def scenS2 : GrowerState := growStep scenarioData scenarioParams scenS1

/-- One block of 100 consecutive sample indices: the scenario matrix is
constant on each such block. -/
def chunkOf (c : ℕ) : List ℕ := (List.range 100).map (fun r => 100 * c + r)

/-- The concatenation of the 100-sample blocks of a list of block ids. -/
def sampleList : List ℕ → List ℕ
  | [] => []
  | c :: cs => chunkOf c ++ sampleList cs

/-- The scenario gradient of block `c` (all 100 samples of a block share
it), as an integer. -/
def scenGz (c : ℕ) : ℤ :=
  if c / 10 ≤ 5 then -1 else if c % 10 ≤ 3 then -1 else 1

/-- The block ids of the scenario's right child (feature-0 code above 5). -/
def rchunksEx : List ℕ := (List.range 100).filter (fun c => ¬ c / 10 ≤ 5)

/-- The root's best split in the scenario: feature 0 at bin 5. -/
def si0ex : SplitInfo :=
  { gain := 3456, feature_idx := 0, bin_idx := 5,
    gradient_left := -6000, hessian_left := 6000, n_samples_left := 6000,
    gradient_right := 800, hessian_right := 4000, n_samples_right := 4000 }

/-- The left child's recorded best split in the scenario: every candidate
has gain 0, so the scan's first admissible cut is kept. -/
def siLex : SplitInfo :=
  { gain := 0, feature_idx := 0, bin_idx := 0,
    gradient_left := -1000, hessian_left := 1000, n_samples_left := 1000,
    gradient_right := -5000, hessian_right := 5000, n_samples_right := 5000 }

/-- The right child's best split in the scenario: feature 1 at bin 3. -/
def siRex : SplitInfo :=
  { gain := 3840, feature_idx := 1, bin_idx := 3,
    gradient_left := -1600, hessian_left := 1600, n_samples_left := 1600,
    gradient_right := 2400, hessian_right := 2400, n_samples_right := 2400 }

/-- The scenario's processed root node: all samples, aggregate sums, and
the recorded best split. -/
def scenRootN : TreeNode :=
  { sample_indices := List.range 10000, depth := 0,
    sum_gradients := -5200, sum_hessians := 10000,
    split_info := some si0ex, value := none, weight := none,
    left_child := none, right_child := none }

/-- The scenario's left child: pure, finalized at creation. -/
def scenLnode : TreeNode :=
  { sample_indices := sampleList (List.range 60), depth := 1,
    sum_gradients := -6000, sum_hessians := 6000,
    split_info := some siLex, value := some (1/2),
    weight := some (-(1/2)), left_child := none, right_child := none }

/-- The scenario's right child: splittable on feature 1 at bin 3. -/
def scenRnode : TreeNode :=
  { sample_indices := sampleList rchunksEx, depth := 1,
    sum_gradients := 800, sum_hessians := 4000,
    split_info := some siRex, value := none, weight := none,
    left_child := none, right_child := none }

/-- The scenario's right-left grandchild, finalized by the leaf cap. -/
def scenRLnode : TreeNode :=
  { sample_indices := leftIndices scenarioData siRex (sampleList rchunksEx),
    depth := 2, sum_gradients := -1600, sum_hessians := 1600,
    split_info := none, value := some (1/2), weight := some (-(1/2)),
    left_child := none, right_child := none }

/-- The scenario's right-right grandchild, finalized by the leaf cap. -/
def scenRRnode : TreeNode :=
  { sample_indices := rightIndices scenarioData siRex (sampleList rchunksEx),
    depth := 2, sum_gradients := 2400, sum_hessians := 2400,
    split_info := none, value := some (-(1/2)), weight := some (1/2),
    left_child := none, right_child := none }

/-- The scenario root after its split is applied: child links set. -/
def scenRootS : TreeNode :=
  { scenRootN with left_child := some 1, right_child := some 2 }

/-- The scenario right child after its split is applied: child links set. -/
def scenRnodeS : TreeNode :=
  { scenRnode with left_child := some 3, right_child := some 4 }

/-- The node arena built by `splitApplied` below the leaf cap. -/
def noncapNodes (d : TrainingData) (p : GrowerParams) (s : GrowerState)
    (pid : ℕ) (si : SplitInfo) : List TreeNode :=
  ((arenaAfterSplit d s pid si).set s.nodes.length
      (processNode d p ((arenaAfterSplit d s pid si).getD s.nodes.length
        default)).1).set (s.nodes.length + 1)
      (processNode d p ((arenaAfterSplit d s pid si).getD
        (s.nodes.length + 1) default)).1

/-- The splittable list built by `splitApplied` below the leaf cap. -/
def noncapSplittable (d : TrainingData) (p : GrowerParams) (s : GrowerState)
    (pid : ℕ) (si : SplitInfo) : List ℕ :=
  s.splittable_nodes.filter (fun id => id ≠ pid)
    ++ (if (processNode d p ((arenaAfterSplit d s pid si).getD
          s.nodes.length default)).2 then [s.nodes.length] else [])
    ++ (if (processNode d p ((arenaAfterSplit d s pid si).getD
          (s.nodes.length + 1) default)).2 then [s.nodes.length + 1]
        else [])

/-- The finalized-leaf list built by `splitApplied` below the leaf cap. -/
def noncapFinalized (d : TrainingData) (p : GrowerParams) (s : GrowerState)
    (pid : ℕ) (si : SplitInfo) : List ℕ :=
  s.finalized_leaves
    ++ (if (processNode d p ((arenaAfterSplit d s pid si).getD
          s.nodes.length default)).2 then [] else [s.nodes.length])
    ++ (if (processNode d p ((arenaAfterSplit d s pid si).getD
          (s.nodes.length + 1) default)).2 then []
        else [s.nodes.length + 1])

/-- The state built by `splitApplied` below the leaf cap, as a definition
(definitionally equal to the non-cap branch of `splitApplied`). -/
def noncapState (d : TrainingData) (p : GrowerParams) (s : GrowerState)
    (pid : ℕ) (si : SplitInfo) : GrowerState :=
  ⟨noncapNodes d p s pid si, noncapSplittable d p s pid si,
    noncapFinalized d p s pid si⟩

/-- The state built by `splitApplied` at the leaf cap, as a definition
(definitionally equal to the cap branch of `splitApplied`). -/
def capState (d : TrainingData) (p : GrowerParams) (s : GrowerState)
    (pid : ℕ) (si : SplitInfo) : GrowerState :=
  { nodes := finalizeMany p (arenaAfterSplit d s pid si)
      (s.nodes.length :: (s.nodes.length + 1)
        :: s.splittable_nodes.filter (fun id => id ≠ pid)),
    splittable_nodes := [],
    finalized_leaves := s.finalized_leaves
      ++ s.nodes.length :: (s.nodes.length + 1)
        :: s.splittable_nodes.filter (fun id => id ≠ pid) }

/-- The state built by grower initialization when the root is processed,
as a definition. -/
def initState (nd : TreeNode) (b : Bool) : GrowerState :=
  { nodes := [nd],
    splittable_nodes := if b then [0] else [],
    finalized_leaves := if b then [] else [0] }

/-- The explicit scenario state after initialization. -/
def scenS0ex : GrowerState :=
  { nodes := [scenRootN], splittable_nodes := [0], finalized_leaves := [] }

/-- The explicit scenario state after the first split. -/
def scenS1ex : GrowerState :=
  { nodes := [scenRootS, scenLnode, scenRnode],
    splittable_nodes := [2], finalized_leaves := [1] }

/-- The explicit scenario state after the second split (cap reached). -/
def scenS2ex : GrowerState :=
  { nodes := [scenRootS, scenLnode, scenRnodeS, scenRLnode, scenRRnode],
    splittable_nodes := [], finalized_leaves := [1, 3, 4] }

/-! ### The provided front end: `pygbm/gradient_boosting.py` -/

/-- The dtypes `fit`/`predict` dispatch on (`gradient_boosting.py` lines
75, 114, 126, 437): `uint8` means pre-binned data. -/
inductive Dtype
  | uint8
  | float32
  | float64
deriving DecidableEq

/-- An input matrix as passed to `fit`/`predict`: a dtype tag plus
row-major entries (pre-binned `uint8` codes are embedded as the integer
values of the rationals). -/
structure InputMatrix where
  dtype : Dtype
  rows : List (List ℚ)

/-- `X.shape[0]`. -/
def InputMatrix.n_samples (X : InputMatrix) : ℕ := X.rows.length

/-- `X.shape[1]`. -/
def InputMatrix.n_features (X : InputMatrix) : ℕ := (X.rows.headD []).length

/-- `X.max()`, as read in `_validate_parameters` (`gradient_boosting.py`
line 76); pre-binned codes are nonnegative so the 0 seed is neutral. -/
def InputMatrix.maxEntry (X : InputMatrix) : ℚ :=
  X.rows.foldl (fun a r => r.foldl max a) 0

/-- The constructor parameters of `BaseGradientBoostingMachine`
(`gradient_boosting.py` lines 29-46) consulted by `_validate_parameters`
(lines 48-81), by the early-stopping split (lines 152-175) and by the
`check_scoring` call (line 221). -/
structure GBMConfig where
  loss : String
  learning_rate : ℚ
  max_iter : ℤ
  max_bins : ℕ
  validation_split : Option ℚ
  n_iter_no_change : Option ℤ
  tol : Option ℚ
  scoring : Option String

/-- `BaseGradientBoostingMachine._validate_parameters`
(`gradient_boosting.py` lines 48-81), checks in source order: unsupported
loss, nonpositive learning rate, `max_iter < 1`, negative
`n_iter_no_change`, nonpositive `validation_split`, negative `tol`, and —
only for pre-binned (`uint8`) input — `max_bins` smaller than the number of
bins present in the data (`X.max() + 1`). -/
def validateParameters (valid_losses : List String) (cfg : GBMConfig)
    (X : InputMatrix) : Except String Unit :=
  if cfg.loss ∉ valid_losses then
    .error "Loss is not supported" else
  if cfg.learning_rate ≤ 0 then
    .error "learning_rate must be strictly positive" else
  if cfg.max_iter < 1 then
    .error "max_iter must not be smaller than 1" else
  if (match cfg.n_iter_no_change with
      | some v => decide (v < 0) | none => false) then
    .error "n_iter_no_change must be positive" else
  if (match cfg.validation_split with
      | some v => decide (v ≤ 0) | none => false) then
    .error "validation_split must be strictly positive, or None" else
  if (match cfg.tol with
      | some t => decide (t < 0) | none => false) then
    .error "tol must not be smaller than 0" else
  if X.dtype = Dtype.uint8 ∧ (cfg.max_bins : ℚ) < X.maxEntry + 1 then
    .error "max_bins is smaller than the number of bins of the pre-binned data"
  else .ok ()

/-- An invalid configuration in the sense of claim C4: loss not in the
valid set, nonpositive learning rate, `max_iter < 1`, negative
`n_iter_no_change`, nonpositive `validation_split`, or negative `tol`
(`gradient_boosting.py` lines 54-74). -/
def invalidConfig (valid_losses : List String) (cfg : GBMConfig) : Prop :=
  cfg.loss ∉ valid_losses
    ∨ cfg.learning_rate ≤ 0
    ∨ cfg.max_iter < 1
    ∨ (∃ v, cfg.n_iter_no_change = some v ∧ v < 0)
    ∨ (∃ v, cfg.validation_split = some v ∧ v ≤ 0)
    ∨ (∃ t, cfg.tol = some t ∧ t < 0)

/-- Model of sklearn's `check_X_y` as used at `gradient_boosting.py` line
114: X must be a nonempty rectangular 2-d array with at least one feature
and y must have one entry per row. -/
def checkXy (X : InputMatrix) (y : List ℚ) : Except String Unit :=
  if X.rows.length = 0 then .error "Found array with 0 samples" else
  if ¬ X.rows.all (fun r => r.length = X.n_features) then
    .error "Inhomogeneous shape" else
  if X.n_features = 0 then .error "Found array with 0 features" else
  if y.length ≠ X.rows.length then
    .error "Inconsistent numbers of samples" else
  .ok ()

/-- The inference-time artifact of one tree, with its two entry points:
`predict_binned` for pre-binned integer input and `predict` for raw
thresholded input (spec sections 3 and 6; `gradient_boosting.py` lines
453-457 selects between them). -/
structure TreePredictorModel where
  predict_binned : InputMatrix → List ℚ
  predict : InputMatrix → List ℚ

/-- `do_early_stopping` (`gradient_boosting.py` lines 152-153): early
stopping is enabled when `n_iter_no_change` is set and positive. -/
def doEarlyStopping (cfg : GBMConfig) : Bool :=
  match cfg.n_iter_no_change with
  | some v => decide (0 < v)
  | none => false

/-- The early-stopping validation split stage of `fit`
(`gradient_boosting.py` lines 155-175): when early stopping is enabled and
`validation_split` is set, the data is split by `train_test_split` — an
external library call, abstracted as the size model `tts` giving the
(train, validation) row counts — and `fit` raises `Not enough data` when
either side is empty (lines 162-168; the feature count is at least two at
this point, so `size == 0` means an empty row set). -/
def earlyStopSplitCheck (cfg : GBMConfig) (tts : ℕ → ℚ → ℕ × ℕ) (n : ℕ) :
    Except String Unit :=
  if doEarlyStopping cfg then
    match cfg.validation_split with
    | some v =>
      if (tts n v).1 = 0 ∨ (tts n v).2 = 0 then
        .error "Not enough data to perform early stopping with validation_split"
      else .ok ()
    | none => .ok ()
  else .ok ()

/-- A size model of `sklearn.model_selection.train_test_split` as called at
`gradient_boosting.py` line 159 (the library is not part of the sources;
this follows its documented behaviour): a fractional `test_size` below 1
reserves the ceiling of `v * n` rows for validation, an absolute
`test_size` reserves `v` rows, and the training side keeps the rest. -/
def sklearnSplitSizes (n : ℕ) (v : ℚ) : ℕ × ℕ :=
  if v < 1 then (n - (⌈v * (n : ℚ)⌉).toNat, (⌈v * (n : ℚ)⌉).toNat)
  else (n - (⌊v⌋).toNat, (⌊v⌋).toNat)

/-- `BaseGradientBoostingMachine.fit` (`gradient_boosting.py` lines
83-326), up to the stage structure relevant here, in source order:
`check_X_y` (line 114), the one-sample/one-feature guard (lines 116-120),
`_validate_parameters` (line 123), the early-stopping validation split
with its `Not enough data` raise (lines 152-175, abstracted over the
library's split sizes `tts`), the `check_scoring` call on the `scoring`
parameter (line 221, abstracted as `chk` since scorer resolution lives in
sklearn), and only then the boosting loop that grows trees and fills
`predictors_`, abstracted as `grow` and applied only after every prior
stage has passed.  The remaining post-validation steps (binning, loss
bookkeeping, lines 126-217) call modules not provided under the sources
and contain no raise of their own. -/
def fitModel (valid_losses : List String) (cfg : GBMConfig)
    (tts : ℕ → ℚ → ℕ × ℕ) (chk : Option String → Except String Unit)
    (grow : InputMatrix → List ℚ → List TreePredictorModel)
    (X : InputMatrix) (y : List ℚ) : Except String (List TreePredictorModel) :=
  match checkXy X y with
  | .error e => .error e
  | .ok _ =>
    if X.n_samples = 1 ∨ X.n_features = 1 then
      .error "Passing only one sample or one feature is not supported"
    else
      match validateParameters valid_losses cfg X with
      | .error e => .error e
      | .ok _ =>
        match earlyStopSplitCheck cfg tts X.n_samples with
        | .error e => .error e
        | .ok _ =>
          match chk cfg.scoring with
          | .error e => .error e
          | .ok _ => .ok (grow X y)

/-- The fitted attributes `_raw_predict` consults (`gradient_boosting.py`
lines 437-457): the list of tree predictors, the optional `bin_mapper_`
(`none` exactly when the estimator was fitted on pre-binned data, line
130), the baseline prediction and the number of training features. -/
structure FittedState where
  predictors : List TreePredictorModel
  bin_mapper : Option Unit
  baseline_prediction : ℚ
  n_features : ℕ

/-- Accumulate per-sample predictions over all predictors through a chosen
entry point, starting from the baseline (`gradient_boosting.py` lines
446-457). -/
def predictorSum (ps : List TreePredictorModel)
    (entry : TreePredictorModel → InputMatrix → List ℚ) (baseline : ℚ)
    (X : InputMatrix) : List ℚ :=
  ps.foldl (fun acc pr => List.zipWith (· + ·) acc (entry pr X))
    (List.replicate X.n_samples baseline)

/-- `BaseGradientBoostingMachine._raw_predict` (`gradient_boosting.py`
lines 415-459): after the feature-count check, raise when the input is not
`uint8` while the estimator was fitted on pre-binned data (no
`bin_mapper_`); otherwise dispatch every predictor through
`predict_binned` for `uint8` input and through `predict` for raw input. -/
def raw_predict (m : FittedState) (X : InputMatrix) : Except String (List ℚ) :=
  if X.n_features ≠ m.n_features then
    .error "X has a different number of features than this estimator"
  else if X.dtype ≠ Dtype.uint8 ∧ m.bin_mapper = none then
    .error "This estimator was fitted with pre-binned data and can only predict pre-binned data"
  else if X.dtype = Dtype.uint8 then
    .ok (predictorSum m.predictors
      (fun pr => pr.predict_binned) m.baseline_prediction X)
  else
    .ok (predictorSum m.predictors
      (fun pr => pr.predict) m.baseline_prediction X)

/-- `_update_raw_predictions` (`gradient_boosting.py` lines 818-836): for
every `(leaf_value, sample_indices)` pair and every index in that pair's
`sample_indices`, add the leaf value to that entry of `raw_predictions`. -/
def update_raw_predictions (leaves_data : List (ℚ × List ℕ))
    (raw_predictions : List ℚ) : List ℚ :=
  leaves_data.foldl
    (fun raw ld => ld.2.foldl (fun r i => r.set i (r.getD i 0 + ld.1)) raw)
    raw_predictions

/-! ### Small concrete instances used as witnesses -/

/-- A configuration that passes every `_validate_parameters` check but
asks for an early-stopping validation split of 2 samples. -/
def cfgSplitEx : GBMConfig :=
  { loss := "ls", learning_rate := 1/10, max_iter := 100, max_bins := 2,
    validation_split := some 2, n_iter_no_change := some 5,
    tol := some (1/10000000), scoring := none }

/-- A two-sample pre-binned input matrix with codes up to 1, so 2 bins
suffice. -/
def XSplitEx : InputMatrix :=
  { dtype := Dtype.uint8, rows := [[0, 1], [1, 0]] }

/-- A tiny concrete dataset: four samples, two features; feature 0
separates the two gradient classes. -/
def tinyData : TrainingData :=
  { n_samples := 4, n_features := 2,
    binned := fun i f => if f = 0 then i / 2 else 0,
    gradient := fun i => if i / 2 = 0 then -1 else 1,
    hessian := fun _ => 1 }

/-- A tiny configuration with no leaf cap. -/
def tinyParams : GrowerParams :=
  { n_bins := 2, max_leaf_nodes := none, max_depth := none,
    min_samples_leaf := 1, l2_regularization := 0,
    min_gain_to_split := 0, shrinkage := 1, eps := 0 }

/-- Tiny instance: the grower state after initialization. -/
def tinyS0 : GrowerState := initGrower tinyData tinyParams

/-- The node stored at an id of the grower's arena. -/
def nodeAt (s : GrowerState) (id : ℕ) : TreeNode := s.nodes.getD id default

/-- The split candidates of a node, recomputed from its own fields. -/
def nodeCandidatesOf (d : TrainingData) (p : GrowerParams) (nd : TreeNode) :
    List SplitInfo :=
  nodeCandidates d p nd.sample_indices nd.sum_gradients nd.sum_hessians
    nd.sample_indices.length

/-- The invariant's requirements on one splittable node of an arena. -/
@[reducible]
def splittableOK (d : TrainingData) (p : GrowerParams) (ns : List TreeNode)
    (id : ℕ) : Prop :=
  id < ns.length
    ∧ (ns.getD id default).value = none
    ∧ (ns.getD id default).sum_gradients
      = gradSum d (ns.getD id default).sample_indices
    ∧ (ns.getD id default).sum_hessians
      = hessSum d (ns.getD id default).sample_indices
    ∧ ∃ si, (ns.getD id default).split_info = some si
        ∧ p.min_gain_to_split ≤ si.gain
        ∧ si ∈ nodeCandidatesOf d p (ns.getD id default)

/-- The invariant's requirements on one finalized leaf of an arena. -/
@[reducible]
def finalizedOK (p : GrowerParams) (ns : List TreeNode) (id : ℕ) : Prop :=
  id < ns.length
    ∧ (ns.getD id default).value
      = some (leaf_value p (ns.getD id default).sum_gradients
          (ns.getD id default).sum_hessians)
    ∧ (ns.getD id default).weight
      = some (leaf_weight p (ns.getD id default).sum_gradients
          (ns.getD id default).sum_hessians)

/-- The grower's state invariant, established at initialization and
preserved by `split_next` (spec section 4.3): splittable ids are distinct
in-bounds arena positions holding nodes with no value, correct aggregate
sums, and a recorded best split above the gain threshold drawn from the
node's own candidate scan; finalized leaves hold the shrinkage-formula
value and weight of their own aggregates; every other node has no value;
and under a `max_leaf_nodes` cap, the leaf count stays below the cap while
growth can continue. -/
def GrowerInv (d : TrainingData) (p : GrowerParams) (s : GrowerState) :
    Prop :=
  s.splittable_nodes.Nodup
    ∧ (∀ id ∈ s.splittable_nodes, id < s.nodes.length
        ∧ (nodeAt s id).value = none
        ∧ (nodeAt s id).sum_gradients = gradSum d (nodeAt s id).sample_indices
        ∧ (nodeAt s id).sum_hessians = hessSum d (nodeAt s id).sample_indices
        ∧ ∃ si, (nodeAt s id).split_info = some si
            ∧ p.min_gain_to_split ≤ si.gain
            ∧ si ∈ nodeCandidatesOf d p (nodeAt s id))
    ∧ (∀ id ∈ s.finalized_leaves, id < s.nodes.length
        ∧ (nodeAt s id).value
          = some (leaf_value p (nodeAt s id).sum_gradients
              (nodeAt s id).sum_hessians)
        ∧ (nodeAt s id).weight
          = some (leaf_weight p (nodeAt s id).sum_gradients
              (nodeAt s id).sum_hessians))
    ∧ (∀ id, id ∉ s.finalized_leaves → (nodeAt s id).value = none)
    ∧ (∀ m, p.max_leaf_nodes = some m → s.splittable_nodes ≠ [] →
        s.finalized_leaves.length + s.splittable_nodes.length < m)

/-! ## Lemmas and theorems -/

theorem getD_set_self {α : Type} {ns : List α} {i : ℕ} {a dv : α}
    (h : i < ns.length) : (ns.set i a).getD i dv = a := by
  simp [List.getD_eq_getElem?_getD, List.getElem?_set_self h]

theorem getD_set_ne {α : Type} {ns : List α} {i j : ℕ} {a dv : α}
    (h : i ≠ j) : (ns.set i a).getD j dv = ns.getD j dv := by
  simp [List.getD_eq_getElem?_getD, List.getElem?_set_ne h]

theorem getD_append_left {α : Type} {l₁ l₂ : List α} {i : ℕ} {dv : α}
    (h : i < l₁.length) : (l₁ ++ l₂).getD i dv = l₁.getD i dv := by
  simp [List.getD_eq_getElem?_getD, List.getElem?_append_left h]

theorem getD_append_right {α : Type} {l₁ l₂ : List α} {i : ℕ} {dv : α}
    (h : l₁.length ≤ i) :
    (l₁ ++ l₂).getD i dv = l₂.getD (i - l₁.length) dv := by
  simp [List.getD_eq_getElem?_getD, List.getElem?_append_right h]

theorem finalize_leaf_sample_indices (p : GrowerParams) (nd : TreeNode) :
    (finalize_leaf p nd).sample_indices = nd.sample_indices := rfl

theorem processNode_sample_indices (d : TrainingData) (p : GrowerParams)
    (nd : TreeNode) :
    (processNode d p nd).1.sample_indices = nd.sample_indices := by
  unfold processNode
  split
  · rfl
  · rcases h : find_node_split d p nd.sample_indices nd.sum_gradients
      nd.sum_hessians nd.sample_indices.length with _ | si
    · simp only [h]
      rfl
    · simp only [h]
      split <;> rfl

theorem finalizeMany_sample_indices (p : GrowerParams) (ids : List ℕ)
    (ns : List TreeNode) (j : ℕ) :
    ((finalizeMany p ns ids).getD j default).sample_indices
      = (ns.getD j default).sample_indices := by
  induction ids generalizing ns with
  | nil => rfl
  | cons i rest ih =>
    rw [finalizeMany, ih]
    by_cases hij : i = j
    · subst hij
      by_cases hlen : i < ns.length
      · rw [getD_set_self hlen, finalize_leaf_sample_indices]
      · rw [List.set_eq_of_length_le (Nat.le_of_not_lt hlen)]
    · rw [getD_set_ne hij]

theorem finalizeMany_length (p : GrowerParams) (ids : List ℕ)
    (ns : List TreeNode) :
    (finalizeMany p ns ids).length = ns.length := by
  induction ids generalizing ns with
  | nil => rfl
  | cons i rest ih =>
    rw [finalizeMany, ih, List.length_set]

/-- In the state returned by `splitApplied`, the child created at id
`s.nodes.length` owns exactly the left part of the parent's partition. -/
theorem splitApplied_left_samples (d : TrainingData) (p : GrowerParams)
    (s : GrowerState) (pid : ℕ) (si : SplitInfo) :
    (((splitApplied d p s pid si).1.nodes.getD s.nodes.length
        default)).sample_indices
      = leftIndices d si (s.nodes.getD pid default).sample_indices := by
  have harena : (arenaAfterSplit d s pid si).getD s.nodes.length default
      = childNode ((s.nodes.getD pid default).depth + 1)
          (leftIndices d si (s.nodes.getD pid default).sample_indices)
          si.gradient_left si.hessian_left := by
    rw [arenaAfterSplit, getD_append_right (by simp)]
    simp
  have hlen : (arenaAfterSplit d s pid si).length = s.nodes.length + 2 := by
    simp [arenaAfterSplit]
  rw [splitApplied]
  split
  · simp only
    rw [finalizeMany_sample_indices, harena]
    rfl
  · simp only
    rw [getD_set_ne (by omega),
      getD_set_self (by rw [hlen]; omega),
      processNode_sample_indices, harena]
    rfl

/-- In the state returned by `splitApplied`, the child created at id
`s.nodes.length + 1` owns exactly the right part of the parent's
partition. -/
theorem splitApplied_right_samples (d : TrainingData) (p : GrowerParams)
    (s : GrowerState) (pid : ℕ) (si : SplitInfo) :
    (((splitApplied d p s pid si).1.nodes.getD (s.nodes.length + 1)
        default)).sample_indices
      = rightIndices d si (s.nodes.getD pid default).sample_indices := by
  have harena : (arenaAfterSplit d s pid si).getD (s.nodes.length + 1) default
      = childNode ((s.nodes.getD pid default).depth + 1)
          (rightIndices d si (s.nodes.getD pid default).sample_indices)
          si.gradient_right si.hessian_right := by
    rw [arenaAfterSplit, getD_append_right (by simp)]
    simp
  have hlen : (arenaAfterSplit d s pid si).length = s.nodes.length + 2 := by
    simp [arenaAfterSplit]
  rw [splitApplied]
  split
  · simp only
    rw [finalizeMany_sample_indices, harena]
    rfl
  · simp only
    rw [getD_set_self (by rw [List.length_set, hlen]; omega),
      processNode_sample_indices, harena]
    rfl

theorem split_next_eq_splitApplied {d : TrainingData} {p : GrowerParams}
    {s s1 : GrowerState} {lid rid : ℕ}
    (h : split_next d p s = some (s1, lid, rid)) :
    ∃ pid si, selectBest s = some pid
      ∧ (s.nodes.getD pid default).split_info = some si
      ∧ splitApplied d p s pid si = (s1, lid, rid) := by
  rw [split_next] at h
  rcases hsel : selectBest s with _ | pid <;> rw [hsel] at h <;>
    dsimp only at h
  · exact absurd h (by simp)
  · rcases hsi : (s.nodes.getD pid default).split_info with _ | si <;>
      rw [hsi] at h <;> dsimp only at h
    · exact absurd h (by simp)
    · exact ⟨pid, si, rfl, hsi, by injection h⟩

theorem splitApplied_child_ids (d : TrainingData) (p : GrowerParams)
    (s : GrowerState) (pid : ℕ) (si : SplitInfo) :
    (splitApplied d p s pid si).2
      = (s.nodes.length, s.nodes.length + 1) := by
  rw [splitApplied]
  split <;> rfl

theorem length_filter_not_add {l : List ℕ} {P : ℕ → Prop}
    [DecidablePred P] :
    (l.filter (fun x => decide (P x))).length
        + (l.filter (fun x => decide (¬ P x))).length
      = l.length := by
  induction l with
  | nil => rfl
  | cons x xs ih =>
    by_cases hx : P x
    · rw [List.filter_cons_of_pos (by simpa using hx),
        List.filter_cons_of_neg (by simpa using hx)]
      simp only [List.length_cons]
      omega
    · rw [List.filter_cons_of_neg (by simpa using hx),
        List.filter_cons_of_pos (by simpa using hx)]
      simp only [List.length_cons]
      omega

/-- Claim C2.  For every split applied by the grower via `split_next`, the
two children's `sample_indices` are disjoint, their union covers exactly
the parent's `sample_indices`, and their lengths add up to the parent's —
no row is duplicated or dropped. -/
theorem splitNext_partitions_parent (d : TrainingData) (p : GrowerParams)
    (s s1 : GrowerState) (lid rid : ℕ)
    (h : split_next d p s = some (s1, lid, rid)) :
    (s1.nodes.getD lid default).sample_indices.length
        + (s1.nodes.getD rid default).sample_indices.length
      = (s.nodes.getD ((selectBest s).getD 0) default).sample_indices.length
    ∧ (∀ x, x ∈ (s.nodes.getD ((selectBest s).getD 0) default).sample_indices
        ↔ x ∈ (s1.nodes.getD lid default).sample_indices
          ∨ x ∈ (s1.nodes.getD rid default).sample_indices)
    ∧ ∀ x, x ∈ (s1.nodes.getD lid default).sample_indices
        → x ∉ (s1.nodes.getD rid default).sample_indices := by
  obtain ⟨pid, si, hsel, hsi, happ⟩ := split_next_eq_splitApplied h
  have hids := splitApplied_child_ids d p s pid si
  rw [happ] at hids
  have hlid : lid = s.nodes.length := by
    simpa using congrArg Prod.fst hids
  have hrid : rid = s.nodes.length + 1 := by
    simpa using congrArg Prod.snd hids
  have hs1 : s1 = (splitApplied d p s pid si).1 := by rw [happ]
  have hl : (s1.nodes.getD lid default).sample_indices
      = leftIndices d si (s.nodes.getD pid default).sample_indices := by
    rw [hs1, hlid]; exact splitApplied_left_samples d p s pid si
  have hr : (s1.nodes.getD rid default).sample_indices
      = rightIndices d si (s.nodes.getD pid default).sample_indices := by
    rw [hs1, hrid]; exact splitApplied_right_samples d p s pid si
  rw [hsel]
  simp only [Option.getD_some]
  refine ⟨?_, ?_, ?_⟩
  · rw [hl, hr, leftIndices, rightIndices]
    exact length_filter_not_add
  · intro x
    rw [hl, hr, leftIndices, rightIndices]
    simp only [List.mem_filter]
    by_cases hx : d.binned x si.feature_idx ≤ si.bin_idx <;> simp [hx]
  · intro x hxl hxr
    rw [hl, leftIndices] at hxl
    rw [hr, rightIndices] at hxr
    simp only [List.mem_filter] at hxl hxr
    rcases hxl with ⟨-, h1⟩
    rcases hxr with ⟨-, h2⟩
    simp only [decide_eq_true_eq] at h1 h2
    exact h2 h1

/-- Witness for claim C2 at a concrete instance: the tiny grower applies
its first split producing children 1 and 2, and the partition invariant
holds there. -/
theorem splitNext_partitions_parent_witness :
    ∃ s1, split_next tinyData tinyParams tinyS0 = some (s1, 1, 2)
      ∧ ((s1.nodes.getD 1 default).sample_indices.length
            + (s1.nodes.getD 2 default).sample_indices.length
          = ((tinyS0.nodes.getD ((selectBest tinyS0).getD 0)
              default)).sample_indices.length)
      ∧ (∀ x, x ∈ ((tinyS0.nodes.getD ((selectBest tinyS0).getD 0)
              default)).sample_indices
          ↔ x ∈ (s1.nodes.getD 1 default).sample_indices
            ∨ x ∈ (s1.nodes.getD 2 default).sample_indices)
      ∧ ∀ x, x ∈ (s1.nodes.getD 1 default).sample_indices
          → x ∉ (s1.nodes.getD 2 default).sample_indices := by
  have h : ∃ s1, split_next tinyData tinyParams tinyS0 = some (s1, 1, 2) := by
    norm_num [tinyS0, tinyData, tinyParams, initGrower, processNode,
      find_node_split, nodeCandidates, featureCandidates, build_histogram,
      histBump, scanBins, split_gain, betterSplit, selectBest, nodeGain,
      split_next, splitApplied, arenaAfterSplit, capReached, finalizeMany,
      finalize_leaf, leaf_value, leaf_weight, gradSum, hessSum, leftIndices,
      rightIndices, childNode, List.range_succ]
  obtain ⟨s1, h⟩ := h
  exact ⟨s1, h, splitNext_partitions_parent tinyData tinyParams tinyS0 s1 1 2 h⟩

/-- Claim C8.  Tree growth is deterministic: two runs on identical
discretized features, gradients, hessians and configuration produce the
identical tree — the same split sequence and the same states (hence leaf
values) after any number of steps.  The grower is a pure function of its
inputs; its tie-breaks (lowest feature then lowest bin in the split finder,
insertion order in the priority pop) are fixed. -/
theorem grow_deterministic (d1 d2 : TrainingData) (p1 p2 : GrowerParams)
    (k : ℕ) (hd : d1 = d2) (hp : p1 = p2) :
    growSteps d1 p1 k (initGrower d1 p1)
        = growSteps d2 p2 k (initGrower d2 p2)
      ∧ growTrace d1 p1 k (initGrower d1 p1)
        = growTrace d2 p2 k (initGrower d2 p2) := by
  subst hd
  subst hp
  exact ⟨rfl, rfl⟩

/-- Witness for claim C8 at a concrete instance. -/
theorem grow_deterministic_witness :
    growSteps tinyData tinyParams 1 (initGrower tinyData tinyParams)
        = growSteps tinyData tinyParams 1 (initGrower tinyData tinyParams)
      ∧ growTrace tinyData tinyParams 1 (initGrower tinyData tinyParams)
        = growTrace tinyData tinyParams 1 (initGrower tinyData tinyParams) :=
  grow_deterministic tinyData tinyData tinyParams tinyParams 1 rfl rfl

/-- A passing `_validate_parameters` implies every single check passed
(`gradient_boosting.py` lines 48-81). -/
theorem validate_ok_conditions {vl : List String} {cfg : GBMConfig}
    {X : InputMatrix} (h : validateParameters vl cfg X = .ok ()) :
    cfg.loss ∈ vl ∧ 0 < cfg.learning_rate ∧ 1 ≤ cfg.max_iter
      ∧ (∀ v, cfg.n_iter_no_change = some v → 0 ≤ v)
      ∧ (∀ v, cfg.validation_split = some v → 0 < v)
      ∧ (∀ t, cfg.tol = some t → 0 ≤ t)
      ∧ ¬(X.dtype = Dtype.uint8 ∧ (cfg.max_bins : ℚ) < X.maxEntry + 1) := by
  unfold validateParameters at h
  repeat' split at h
  any_goals exact Except.noConfusion h
  rename_i h1 h2 h3 h4 h5 h6 h7
  refine ⟨not_not.mp h1, lt_of_not_le h2, le_of_not_lt h3, ?_, ?_, ?_, h7⟩
  · intro v hv
    rw [hv] at h4
    simp only [decide_eq_true_eq] at h4
    omega
  · intro v hv
    rw [hv] at h5
    simp only [decide_eq_true_eq] at h5
    exact lt_of_not_le h5
  · intro t ht
    rw [ht] at h6
    simp only [decide_eq_true_eq] at h6
    exact le_of_not_lt h6

/-- Claim C4.  A fit call with an invalid configuration (loss not in the
valid set, nonpositive learning rate, `max_iter < 1`, negative
`n_iter_no_change`, nonpositive `validation_split`, or negative `tol`)
errors out before any tree is grown: the result is an error for every
split-size model `tts`, every scoring check `chk` and every growth phase
`grow`, so no predictors are produced. -/
theorem fit_invalid_config_raises (vl : List String) (cfg : GBMConfig)
    (tts : ℕ → ℚ → ℕ × ℕ) (chk : Option String → Except String Unit)
    (grow : InputMatrix → List ℚ → List TreePredictorModel)
    (X : InputMatrix) (y : List ℚ) (h : invalidConfig vl cfg) :
    ∃ msg, fitModel vl cfg tts chk grow X y = .error msg := by
  unfold fitModel
  rcases hchk : checkXy X y with e | u
  · exact ⟨e, rfl⟩
  · dsimp only
    split
    · exact ⟨_, rfl⟩
    · rcases hval : validateParameters vl cfg X with e | u2
      · exact ⟨e, rfl⟩
      · exfalso
        cases u2
        obtain ⟨c1, c2, c3, c4, c5, c6, -⟩ := validate_ok_conditions hval
        rcases h with h | h | h | ⟨v, hv, hlt⟩ | ⟨v, hv, hle⟩ | ⟨t, ht, hlt⟩
        · exact h c1
        · exact absurd c2 (not_lt.mpr h)
        · exact absurd c3 (not_le.mpr h)
        · exact absurd (c4 v hv) (not_le.mpr hlt)
        · exact absurd (c5 v hv) (not_lt.mpr hle)
        · exact absurd (c6 t ht) (not_le.mpr hlt)

/-- Witness for claim C4: a configuration with a nonpositive learning rate
is rejected. -/
theorem fit_invalid_config_raises_witness :
    ∃ msg, fitModel ["least_squares"]
      { loss := "least_squares", learning_rate := 0, max_iter := 100,
        max_bins := 256, validation_split := some (1/10),
        n_iter_no_change := some 5, tol := some (1/10000000),
        scoring := none }
      (fun _ _ => (1, 1)) (fun _ => Except.ok ()) (fun _ _ => [])
      { dtype := Dtype.float32, rows := [[0, 0], [1, 1]] } [0, 1]
      = .error msg :=
  fit_invalid_config_raises _ _ _ _ _ _ _ (Or.inr (Or.inl le_rfl))

/-- Claim C9.  A fit call whose input matrix has exactly one sample or
exactly one feature errors out (the guard at `gradient_boosting.py` lines
116-120, placed after `check_X_y` input validation and before binning or
growth): the result is an error for every split-size model, scoring check
and growth phase, so no predictors are produced. -/
theorem fit_one_sample_or_feature_raises (vl : List String)
    (cfg : GBMConfig) (tts : ℕ → ℚ → ℕ × ℕ)
    (chk : Option String → Except String Unit)
    (grow : InputMatrix → List ℚ → List TreePredictorModel)
    (X : InputMatrix) (y : List ℚ)
    (h : X.n_samples = 1 ∨ X.n_features = 1) :
    ∃ msg, fitModel vl cfg tts chk grow X y = .error msg := by
  unfold fitModel
  rcases hchk : checkXy X y with e | u
  · exact ⟨e, rfl⟩
  · dsimp only
    rw [if_pos h]
    exact ⟨_, rfl⟩

/-- Witness for claim C9: a two-sample, one-feature matrix is rejected. -/
theorem fit_one_sample_or_feature_raises_witness :
    ∃ msg, fitModel ["least_squares"]
      { loss := "least_squares", learning_rate := 1/10, max_iter := 100,
        max_bins := 256, validation_split := some (1/10),
        n_iter_no_change := some 5, tol := some (1/10000000),
        scoring := none }
      (fun _ _ => (1, 1)) (fun _ => Except.ok ()) (fun _ _ => [])
      { dtype := Dtype.float32, rows := [[0], [1]] } [0, 1]
      = .error msg :=
  fit_one_sample_or_feature_raises _ _ _ _ _ _ _ (Or.inr rfl)

/-- Claim C5 (corrected).  For a fit call on pre-binned (`uint8`) data
whose configuration passes every other validation check and whose input
passes the shape checks: whenever `max_bins` is smaller than the number of
bins present in the data (largest code + 1), the error arises inside
`_validate_parameters` (which `fitModel` runs before any growth).  The
claimed equivalence, however, holds only with the later pre-growth raises
of `fit` accounted for: the fit errors iff `max_bins` is too small, or the
early-stopping validation split leaves an empty side (`gradient_boosting.py`
lines 162-168), or `check_scoring` rejects the scoring parameter (line
221). -/
theorem prebinned_max_bins_check (vl : List String) (cfg : GBMConfig)
    (tts : ℕ → ℚ → ℕ × ℕ) (chk : Option String → Except String Unit)
    (grow : InputMatrix → List ℚ → List TreePredictorModel)
    (X : InputMatrix) (y : List ℚ)
    (hdtype : X.dtype = Dtype.uint8)
    (hloss : cfg.loss ∈ vl) (hlr : 0 < cfg.learning_rate)
    (hmi : 1 ≤ cfg.max_iter)
    (hnic : ∀ v, cfg.n_iter_no_change = some v → 0 ≤ v)
    (hvs : ∀ v, cfg.validation_split = some v → 0 < v)
    (htol : ∀ t, cfg.tol = some t → 0 ≤ t)
    (hxy : checkXy X y = .ok ())
    (hguard : ¬(X.n_samples = 1 ∨ X.n_features = 1)) :
    ((cfg.max_bins : ℚ) < X.maxEntry + 1
        → ∃ e, validateParameters vl cfg X = .error e)
      ∧ ((∃ msg, fitModel vl cfg tts chk grow X y = .error msg)
        ↔ ((cfg.max_bins : ℚ) < X.maxEntry + 1
            ∨ (∃ e, earlyStopSplitCheck cfg tts X.n_samples = .error e)
            ∨ (∃ e, chk cfg.scoring = .error e))) := by
  have h4 : ¬((match cfg.n_iter_no_change with
      | some v => decide (v < 0) | none => false) = true) := by
    rcases hv : cfg.n_iter_no_change with _ | v
    · simp
    · have := hnic v hv
      simp only [decide_eq_true_eq]
      omega
  have h5 : ¬((match cfg.validation_split with
      | some v => decide (v ≤ 0) | none => false) = true) := by
    rcases hv : cfg.validation_split with _ | v
    · simp
    · have := hvs v hv
      simp only [decide_eq_true_eq]
      exact not_le.mpr this
  have h6 : ¬((match cfg.tol with
      | some t => decide (t < 0) | none => false) = true) := by
    rcases ht : cfg.tol with _ | t
    · simp
    · have := htol t ht
      simp only [decide_eq_true_eq]
      exact not_lt.mpr this
  have hval : validateParameters vl cfg X
      = if X.dtype = Dtype.uint8 ∧ (cfg.max_bins : ℚ) < X.maxEntry + 1 then
          .error "max_bins is smaller than the number of bins of the pre-binned data"
        else .ok () := by
    unfold validateParameters
    rw [if_neg (by simpa using hloss), if_neg (by simpa using hlr),
      if_neg (by simpa using hmi), if_neg h4, if_neg h5, if_neg h6]
  have hfit : fitModel vl cfg tts chk grow X y
      = match validateParameters vl cfg X with
        | .error e => .error e
        | .ok _ =>
          match earlyStopSplitCheck cfg tts X.n_samples with
          | .error e => .error e
          | .ok _ =>
            match chk cfg.scoring with
            | .error e => .error e
            | .ok _ => .ok (grow X y) := by
    unfold fitModel
    rw [hxy]
    dsimp only
    rw [if_neg hguard]
  refine ⟨fun hbins => ⟨_, by rw [hval, if_pos ⟨hdtype, hbins⟩]⟩, ?_⟩
  by_cases hbins : (cfg.max_bins : ℚ) < X.maxEntry + 1
  · constructor
    · intro _
      exact Or.inl hbins
    · intro _
      exact ⟨_, by rw [hfit, hval, if_pos ⟨hdtype, hbins⟩]⟩
  · have hvalok : validateParameters vl cfg X = .ok () := by
      rw [hval, if_neg (fun hc => hbins hc.2)]
    have hstep : fitModel vl cfg tts chk grow X y
        = match earlyStopSplitCheck cfg tts X.n_samples with
          | .error e => .error e
          | .ok _ =>
            match chk cfg.scoring with
            | .error e => .error e
            | .ok _ => .ok (grow X y) := by
      rw [hfit, hvalok]
    rcases hes : earlyStopSplitCheck cfg tts X.n_samples with e | u
    · constructor
      · intro _
        exact Or.inr (Or.inl ⟨e, rfl⟩)
      · intro _
        exact ⟨e, by rw [hstep, hes]⟩
    · cases u
      have hstep2 : fitModel vl cfg tts chk grow X y
          = match chk cfg.scoring with
            | .error e => .error e
            | .ok _ => .ok (grow X y) := by
        rw [hstep, hes]
      rcases hck : chk cfg.scoring with e | u2
      · constructor
        · intro _
          exact Or.inr (Or.inr ⟨e, rfl⟩)
        · intro _
          exact ⟨e, by rw [hstep2, hck]⟩
      · cases u2
        have hok : fitModel vl cfg tts chk grow X y = .ok (grow X y) := by
          rw [hstep2, hck]
        constructor
        · rintro ⟨msg, hmsg⟩
          rw [hok] at hmsg
          exact absurd hmsg (by simp)
        · rintro (h | ⟨e, he⟩ | ⟨e, he⟩)
          · exact absurd h hbins
          · exact absurd he (by simp)
          · exact absurd he (by simp)

/-- Witness for claim C5 at a concrete instance: pre-binned data with
largest code 3 (so 4 bins) against `max_bins = 2`, a split-size model with
both sides nonempty, and a scoring check that accepts. -/
theorem prebinned_max_bins_check_witness :
    (((2 : ℕ) : ℚ)
          < (InputMatrix.maxEntry
              { dtype := Dtype.uint8, rows := [[0, 3], [1, 2]] }) + 1
        → ∃ e, validateParameters ["ls"]
            { loss := "ls", learning_rate := 1/10, max_iter := 100,
              max_bins := 2, validation_split := some (1/10),
              n_iter_no_change := some 5, tol := some (1/10000000),
              scoring := none }
            { dtype := Dtype.uint8, rows := [[0, 3], [1, 2]] } = .error e)
    ∧ ((∃ msg, fitModel ["ls"]
          { loss := "ls", learning_rate := 1/10, max_iter := 100,
            max_bins := 2, validation_split := some (1/10),
            n_iter_no_change := some 5, tol := some (1/10000000),
            scoring := none }
          (fun _ _ => (1, 1)) (fun _ => Except.ok ()) (fun _ _ => [])
          { dtype := Dtype.uint8, rows := [[0, 3], [1, 2]] } [0, 1]
          = .error msg)
      ↔ (((2 : ℕ) : ℚ)
            < (InputMatrix.maxEntry
                { dtype := Dtype.uint8, rows := [[0, 3], [1, 2]] }) + 1
          ∨ (∃ e, earlyStopSplitCheck
              { loss := "ls", learning_rate := 1/10, max_iter := 100,
                max_bins := 2, validation_split := some (1/10),
                n_iter_no_change := some 5, tol := some (1/10000000),
                scoring := none }
              (fun _ _ => (1, 1)) 2 = .error e)
          ∨ (∃ e, (Except.ok () : Except String Unit) = .error e))) :=
  prebinned_max_bins_check ["ls"]
    { loss := "ls", learning_rate := 1/10, max_iter := 100,
      max_bins := 2, validation_split := some (1/10),
      n_iter_no_change := some 5, tol := some (1/10000000),
      scoring := none }
    (fun _ _ => (1, 1)) (fun _ => Except.ok ()) (fun _ _ => [])
    { dtype := Dtype.uint8, rows := [[0, 3], [1, 2]] } [0, 1] rfl
    (List.mem_cons_self _ _) (by norm_num) (by norm_num)
    (fun v hv => by injection hv with h; omega)
    (fun v hv => by injection hv with h; rw [← h]; norm_num)
    (fun t ht => by injection ht with h; rw [← h]; norm_num)
    rfl
    (by rintro (h | h) <;> exact absurd h (by decide))

/-- The largest code of the two-sample matrix `XSplitEx` is 1. -/
theorem XSplitEx_maxEntry : XSplitEx.maxEntry = 1 := by
  norm_num [InputMatrix.maxEntry, XSplitEx, List.foldl_cons, List.foldl_nil,
    max_def]

/-- `cfgSplitEx` passes every `_validate_parameters` check on `XSplitEx`:
in particular `max_bins = 2` accommodates the data's 2 bins. -/
theorem validateParameters_splitEx : validateParameters ["ls"] cfgSplitEx XSplitEx = .ok () := by
  unfold validateParameters
  rw [if_neg (by simp [cfgSplitEx]), if_neg (by norm_num [cfgSplitEx]),
    if_neg (by norm_num [cfgSplitEx]), if_neg (by simp [cfgSplitEx]),
    if_neg (by norm_num [cfgSplitEx]), if_neg (by norm_num [cfgSplitEx]),
    if_neg (by rw [XSplitEx_maxEntry]; norm_num [cfgSplitEx])]

/-- An absolute `test_size` of 2 on 2 samples takes every row for
validation and leaves the training side empty. -/
theorem sklearnSplitSizes_two : sklearnSplitSizes 2 2 = (0, 2) := by
  unfold sklearnSplitSizes
  rw [if_neg (by norm_num)]
  norm_num
  decide

/-- On `XSplitEx` under `cfgSplitEx`, the early-stopping split check
fires the `Not enough data` raise of `gradient_boosting.py` lines
162-168. -/
theorem earlyStop_splitEx : earlyStopSplitCheck cfgSplitEx sklearnSplitSizes
    (InputMatrix.n_samples XSplitEx)
    = .error "Not enough data to perform early stopping with validation_split" := by
  have hn : InputMatrix.n_samples XSplitEx = 2 := rfl
  unfold earlyStopSplitCheck
  rw [hn, if_pos (by simp [doEarlyStopping, cfgSplitEx])]
  show (match cfgSplitEx.validation_split with
    | some v =>
      if (sklearnSplitSizes 2 v).1 = 0 ∨ (sklearnSplitSizes 2 v).2 = 0 then
        Except.error "Not enough data to perform early stopping with validation_split"
      else Except.ok ()
    | none => Except.ok ()) = _
  rw [show cfgSplitEx.validation_split = some 2 from rfl]
  dsimp only
  rw [sklearnSplitSizes_two]
  norm_num

/-- Counterexample for claim C5's claimed equivalence: a pre-binned fit
call whose `max_bins` accommodates the data and whose configuration passes
every `_validate_parameters` check still raises — with two samples and
`validation_split = 2`, the early-stopping `train_test_split` leaves the
training side empty and `fit` raises `Not enough data`
(`gradient_boosting.py` lines 162-168), after validation but before any
growth. -/
theorem prebinned_fit_raises_despite_max_bins :
    ¬ ((cfgSplitEx.max_bins : ℚ) < XSplitEx.maxEntry + 1)
    ∧ validateParameters ["ls"] cfgSplitEx XSplitEx = .ok ()
    ∧ (∃ msg, fitModel ["ls"] cfgSplitEx sklearnSplitSizes
        (fun _ => Except.ok ()) (fun _ _ => []) XSplitEx [0, 1]
        = .error msg) := by
  refine ⟨?_, validateParameters_splitEx, ?_⟩
  · rw [XSplitEx_maxEntry]
    norm_num [cfgSplitEx]
  · refine ⟨"Not enough data to perform early stopping with validation_split", ?_⟩
    unfold fitModel
    rw [show checkXy XSplitEx [0, 1] = .ok () from rfl]
    dsimp only
    rw [if_neg (by decide)]
    rw [validateParameters_splitEx, earlyStop_splitEx]

/-- Claim C6.  `_raw_predict` dispatches on the input representation (given
the feature-count check passes): `uint8` input is routed through every
predictor's `predict_binned` entry point; non-`uint8` input through
`predict`; and when the estimator was fitted on pre-binned data (no
`bin_mapper_`), non-`uint8` input raises an error. -/
theorem raw_predict_dispatch (m : FittedState) (X : InputMatrix)
    (hfeat : X.n_features = m.n_features) :
    (X.dtype = Dtype.uint8 →
      raw_predict m X = .ok (predictorSum m.predictors
        (fun pr => pr.predict_binned) m.baseline_prediction X))
    ∧ (X.dtype ≠ Dtype.uint8 → m.bin_mapper ≠ none →
      raw_predict m X = .ok (predictorSum m.predictors
        (fun pr => pr.predict) m.baseline_prediction X))
    ∧ (X.dtype ≠ Dtype.uint8 → m.bin_mapper = none →
      ∃ msg, raw_predict m X = .error msg) := by
  unfold raw_predict
  rw [if_neg (by rw [hfeat]; exact fun h => h rfl)]
  refine ⟨?_, ?_, ?_⟩
  · intro hd
    rw [if_neg (by rintro ⟨h1, -⟩; exact h1 hd), if_pos hd]
  · intro hd hm
    rw [if_neg (by rintro ⟨-, h2⟩; exact hm h2), if_neg hd]
  · intro hd hm
    rw [if_pos ⟨hd, hm⟩]
    exact ⟨_, rfl⟩

/-- Witness for claim C6 at a concrete instance: one predictor, fitted
with a bin mapper, queried with raw (float) input. -/
theorem raw_predict_dispatch_witness :
    let pr : TreePredictorModel :=
      { predict_binned := fun X => List.replicate X.n_samples 2,
        predict := fun X => List.replicate X.n_samples 3 }
    let m : FittedState :=
      { predictors := [pr], bin_mapper := some (), baseline_prediction := 0,
        n_features := 1 }
    let X : InputMatrix := { dtype := Dtype.float32, rows := [[5], [6]] }
    (X.dtype = Dtype.uint8 →
      raw_predict m X = .ok (predictorSum m.predictors
        (fun q => q.predict_binned) m.baseline_prediction X))
    ∧ (X.dtype ≠ Dtype.uint8 → m.bin_mapper ≠ none →
      raw_predict m X = .ok (predictorSum m.predictors
        (fun q => q.predict) m.baseline_prediction X))
    ∧ (X.dtype ≠ Dtype.uint8 → m.bin_mapper = none →
      ∃ msg, raw_predict m X = .error msg) :=
  raw_predict_dispatch _ _ rfl

/-- Claim C10, helper: the inner loop of `_update_raw_predictions` over one
leaf adds the leaf value once per occurrence of the index, and preserves
the length. -/
theorem leaf_fold_length (v : ℚ) (idxs : List ℕ) (raw : List ℚ) :
    (idxs.foldl (fun r j => r.set j (r.getD j 0 + v)) raw).length
      = raw.length := by
  induction idxs generalizing raw with
  | nil => rfl
  | cons j rest ih =>
    rw [List.foldl_cons, ih, List.length_set]

theorem leaf_fold_getD (v : ℚ) (idxs : List ℕ) (i : ℕ) :
    ∀ raw : List ℚ, i < raw.length →
      (idxs.foldl (fun r j => r.set j (r.getD j 0 + v)) raw).getD i 0
        = raw.getD i 0 + (idxs.count i : ℚ) * v := by
  induction idxs with
  | nil =>
    intro raw _
    simp
  | cons a rest ih =>
    intro raw hi
    rw [List.foldl_cons,
      ih (raw.set a (raw.getD a 0 + v)) (by rw [List.length_set]; exact hi)]
    by_cases ha : a = i
    · subst ha
      rw [getD_set_self hi]
      have hc : (a :: rest).count a = rest.count a + 1 := by
        simp [List.count_cons]
      rw [hc]
      push_cast
      ring
    · rw [getD_set_ne ha]
      have hc : (a :: rest).count i = rest.count i := by
        simp [List.count_cons, ha]
      rw [hc]

/-- Claim C10.  `_update_raw_predictions` adds, for every
`(leaf_value, sample_indices)` pair and every occurrence of an index `i` in
that pair's `sample_indices`, exactly the leaf value to
`raw_predictions[i]`; an entry whose index appears in no leaf's
`sample_indices` is left unchanged. -/
theorem update_raw_predictions_adds (leaves_data : List (ℚ × List ℕ))
    (raw : List ℚ) (i : ℕ) (hi : i < raw.length) :
    (update_raw_predictions leaves_data raw).getD i 0
        = raw.getD i 0
          + (leaves_data.map (fun ld => (ld.2.count i : ℚ) * ld.1)).sum
      ∧ ((∀ ld ∈ leaves_data, i ∉ ld.2) →
        (update_raw_predictions leaves_data raw).getD i 0 = raw.getD i 0) := by
  have main : ∀ raw : List ℚ, i < raw.length →
      (update_raw_predictions leaves_data raw).getD i 0
        = raw.getD i 0
          + (leaves_data.map (fun ld => (ld.2.count i : ℚ) * ld.1)).sum := by
    clear hi raw
    induction leaves_data with
    | nil => intro raw _; simp [update_raw_predictions]
    | cons ld rest ih =>
      intro raw hi
      rw [update_raw_predictions, List.foldl_cons]
      rw [show (List.foldl
          (fun raw ld => List.foldl
            (fun r i => r.set i (r.getD i 0 + ld.1)) raw ld.2)
          (List.foldl (fun r i => r.set i (r.getD i 0 + ld.1)) raw ld.2)
          rest)
        = update_raw_predictions rest
            (List.foldl (fun r i => r.set i (r.getD i 0 + ld.1)) raw ld.2)
        from rfl]
      rw [ih _ (by rw [leaf_fold_length]; exact hi)]
      rw [leaf_fold_getD ld.1 ld.2 i raw hi]
      rw [List.map_cons, List.sum_cons]
      ring
  refine ⟨main raw hi, fun hnone => ?_⟩
  rw [main raw hi]
  have : (leaves_data.map (fun ld => (ld.2.count i : ℚ) * ld.1)).sum = 0 := by
    apply List.sum_eq_zero
    intro x hx
    rcases List.mem_map.mp hx with ⟨ld, hld, hmap⟩
    rw [← hmap, List.count_eq_zero.mpr (hnone ld hld)]
    push_cast
    ring
  rw [this]
  ring

theorem gradSum_aux (d : TrainingData) (idx : List ℕ) :
    ∀ acc : ℚ, idx.foldl (fun a i => a + d.gradient i) acc
      = acc + gradSum d idx := by
  induction idx with
  | nil =>
    intro acc
    simp [gradSum]
  | cons x xs ih =>
    intro acc
    rw [gradSum, List.foldl_cons, List.foldl_cons, ih, ih (0 + d.gradient x)]
    ring

theorem gradSum_cons (d : TrainingData) (x : ℕ) (l : List ℕ) :
    gradSum d (x :: l) = d.gradient x + gradSum d l := by
  rw [gradSum, List.foldl_cons, gradSum_aux]
  ring

theorem hessSum_aux (d : TrainingData) (idx : List ℕ) :
    ∀ acc : ℚ, idx.foldl (fun a i => a + d.hessian i) acc
      = acc + hessSum d idx := by
  induction idx with
  | nil =>
    intro acc
    simp [hessSum]
  | cons x xs ih =>
    intro acc
    rw [hessSum, List.foldl_cons, List.foldl_cons, ih, ih (0 + d.hessian x)]
    ring

theorem hessSum_cons (d : TrainingData) (x : ℕ) (l : List ℕ) :
    hessSum d (x :: l) = d.hessian x + hessSum d l := by
  rw [hessSum, List.foldl_cons, hessSum_aux]
  ring

theorem gradSum_append (d : TrainingData) (l1 l2 : List ℕ) :
    gradSum d (l1 ++ l2) = gradSum d l1 + gradSum d l2 := by
  induction l1 with
  | nil => simp [gradSum]
  | cons x xs ih => rw [List.cons_append, gradSum_cons, ih, gradSum_cons]; ring

theorem hessSum_append (d : TrainingData) (l1 l2 : List ℕ) :
    hessSum d (l1 ++ l2) = hessSum d l1 + hessSum d l2 := by
  induction l1 with
  | nil => simp [hessSum]
  | cons x xs ih => rw [List.cons_append, hessSum_cons, ih, hessSum_cons]; ring

/-- Splitting a sum of gradients along a decidable predicate. -/
theorem gradSum_filter_partition (d : TrainingData) (l : List ℕ)
    (P : ℕ → Prop) [DecidablePred P] :
    gradSum d l = gradSum d (l.filter (fun i => decide (P i)))
      + gradSum d (l.filter (fun i => decide (¬ P i))) := by
  induction l with
  | nil => simp [gradSum]
  | cons x xs ih =>
    by_cases hx : P x
    · rw [gradSum_cons, List.filter_cons_of_pos (by simpa using hx),
        List.filter_cons_of_neg (by simpa using hx), gradSum_cons, ih]
      ring
    · rw [gradSum_cons, List.filter_cons_of_neg (by simpa using hx),
        List.filter_cons_of_pos (by simpa using hx), gradSum_cons, ih]
      ring

theorem hessSum_filter_partition (d : TrainingData) (l : List ℕ)
    (P : ℕ → Prop) [DecidablePred P] :
    hessSum d l = hessSum d (l.filter (fun i => decide (P i)))
      + hessSum d (l.filter (fun i => decide (¬ P i))) := by
  induction l with
  | nil => simp [hessSum]
  | cons x xs ih =>
    by_cases hx : P x
    · rw [hessSum_cons, List.filter_cons_of_pos (by simpa using hx),
        List.filter_cons_of_neg (by simpa using hx), hessSum_cons, ih]
      ring
    · rw [hessSum_cons, List.filter_cons_of_neg (by simpa using hx),
        List.filter_cons_of_pos (by simpa using hx), hessSum_cons, ih]
      ring

/-- The best-split fold only ever returns its accumulator or a scanned
candidate. -/
theorem betterSplit_cases (a c : SplitInfo) :
    betterSplit a c = a ∨ betterSplit a c = c := by
  unfold betterSplit
  split
  · exact Or.inr rfl
  · exact Or.inl rfl

theorem find_fold_mem :
    ∀ (l : List SplitInfo) (acc : Option SplitInfo) (si : SplitInfo),
      l.foldl (fun best c =>
          match best with
          | none => some c
          | some a => some (betterSplit a c)) acc = some si →
      acc = some si ∨ si ∈ l := by
  intro l
  induction l with
  | nil =>
    intro acc si h
    exact Or.inl h
  | cons c cs ih =>
    intro acc si h
    rw [List.foldl_cons] at h
    rcases acc with _ | a
    · rcases ih (some c) si h with h1 | h1
      · exact Or.inr (by injection h1 with h1; rw [h1]; exact List.mem_cons_self _ _)
      · exact Or.inr (List.mem_cons_of_mem _ h1)
    · rcases ih (some (betterSplit a c)) si h with h1 | h1
      · injection h1 with h1
        rcases betterSplit_cases a c with h2 | h2
      <;> rw [h2] at h1
        · exact Or.inl (by rw [h1])
        · exact Or.inr (by rw [h1]; exact List.mem_cons_self _ _)
      · exact Or.inr (List.mem_cons_of_mem _ h1)

/-- The winning split of `find_node_split` is one of the node's scanned
candidates. -/
theorem find_node_split_mem {d : TrainingData} {p : GrowerParams}
    {idx : List ℕ} {gTot hTot : ℚ} {n : ℕ} {si : SplitInfo}
    (h : find_node_split d p idx gTot hTot n = some si) :
    si ∈ nodeCandidates d p idx gTot hTot n := by
  rcases find_fold_mem _ _ _ h with h1 | h1
  · exact absurd h1 (by simp)
  · exact h1

/-- The popped node of `selectBest` is one of the splittable ids. -/
theorem selectBest_mem {s : GrowerState} {pid : ℕ}
    (h : selectBest s = some pid) : pid ∈ s.splittable_nodes := by
  have main : ∀ (l : List ℕ) (acc : Option ℕ) (x : ℕ),
      l.foldl (fun best id =>
          match best with
          | none => some id
          | some b => if nodeGain s b < nodeGain s id then some id
              else some b) acc = some x →
      acc = some x ∨ x ∈ l := by
    intro l
    induction l with
    | nil =>
      intro acc x h
      exact Or.inl h
    | cons c cs ih =>
      intro acc x h
      rw [List.foldl_cons] at h
      rcases acc with _ | a
      · rcases ih (some c) x h with h1 | h1
        · injection h1 with h1
          rw [h1]
          exact Or.inr (List.mem_cons_self _ _)
        · exact Or.inr (List.mem_cons_of_mem _ h1)
      · dsimp only at h
        split at h
        · rcases ih (some c) x h with h1 | h1
          · injection h1 with h1
            rw [h1]
            exact Or.inr (List.mem_cons_self _ _)
          · exact Or.inr (List.mem_cons_of_mem _ h1)
        · rcases ih (some a) x h with h1 | h1
          · exact Or.inl h1
          · exact Or.inr (List.mem_cons_of_mem _ h1)
  rcases main s.splittable_nodes none pid h with h1 | h1
  · exact absurd h1 (by simp)
  · exact h1

/-- Membership in an appended foldr of per-feature candidate lists. -/
theorem mem_foldr_append {α β : Type} (g : β → List α) :
    ∀ (l : List β) (x : α),
      x ∈ l.foldr (fun b acc => g b ++ acc) [] ↔ ∃ b ∈ l, x ∈ g b := by
  intro l
  induction l with
  | nil => simp
  | cons b bs ih =>
    intro x
    simp [List.foldr_cons, List.mem_append, ih]

/-- Membership in a node's candidate list comes from one in-range
feature. -/
theorem nodeCandidates_mem_iff {d : TrainingData} {p : GrowerParams}
    {idx : List ℕ} {gTot hTot : ℚ} {n : ℕ} {si : SplitInfo} :
    si ∈ nodeCandidates d p idx gTot hTot n
      ↔ ∃ f, f < d.n_features ∧ si ∈ featureCandidates d p idx gTot hTot n f := by
  rw [nodeCandidates, mem_foldr_append]
  constructor
  · rintro ⟨f, hf, hsi⟩
    exact ⟨f, List.mem_range.mp hf, hsi⟩
  · rintro ⟨f, hf, hsi⟩
    exact ⟨f, List.mem_range.mpr hf, hsi⟩

/-- `histBump` is a point update of the bin list. -/
theorem histBump_eq (g h : ℚ) :
    ∀ (b : ℕ) (l : List (ℚ × ℚ × ℕ)),
      histBump g h b l
        = match l[b]? with
          | some e => l.set b (e.1 + g, e.2.1 + h, e.2.2 + 1)
          | none => l := by
  intro b
  induction b with
  | zero =>
    intro l
    rcases l with _ | ⟨e, rest⟩
    · rfl
    · simp [histBump]
  | succ b ih =>
    intro l
    rcases l with _ | ⟨e, rest⟩
    · rfl
    · rw [histBump, ih rest]
      rcases hrest : rest[b]? with _ | e2
      · simp [hrest]
      · simp [hrest]

theorem histBump_eq_some (g h : ℚ) (b : ℕ) (l : List (ℚ × ℚ × ℕ))
    (e : ℚ × ℚ × ℕ) (he : l[b]? = some e) :
    histBump g h b l = l.set b (e.1 + g, e.2.1 + h, e.2.2 + 1) := by
  rw [histBump_eq, he]

theorem histBump_eq_none (g h : ℚ) (b : ℕ) (l : List (ℚ × ℚ × ℕ))
    (he : l[b]? = none) : histBump g h b l = l := by
  rw [histBump_eq, he]

/-- Setting one position of a mapped range rewrites it to the map of a
pointwise-updated function. -/
theorem map_range_set {α : Type} (F : ℕ → α) (n b : ℕ) (v : α) (hb : b < n) :
    ((List.range n).map F).set b v
      = (List.range n).map (fun x => if x = b then v else F x) := by
  apply List.ext_getElem?
  intro i
  by_cases hi : i < n
  · by_cases hib : i = b
    · subst hib
      simp [List.getElem?_set, hi, List.getElem?_range hi]
    · rw [List.getElem?_set]
      simp [Ne.symm hib, hi, List.getElem?_range hi, hib]
  · have hL : ((((List.range n).map F).set b v))[i]? = none :=
      List.getElem?_eq_none (by simp; omega)
    have hR : ((List.range n).map (fun x => if x = b then v else F x))[i]?
        = none := List.getElem?_eq_none (by simp; omega)
    rw [hL, hR]

theorem map_range_const {α : Type} (n : ℕ) (c : α) :
    (List.range n).map (fun _ => c) = List.replicate n c := by
  apply List.eq_replicate_iff.mpr
  constructor
  · simp
  · intro b hb
    rcases List.mem_map.mp hb with ⟨x, -, hx⟩
    exact hx.symm

/-- The per-bin triple of one feature's histogram: gradient sum, hessian
sum and count of the samples whose code is exactly that bin. -/
theorem build_histogram_eq (d : TrainingData) (p : GrowerParams)
    (idx : List ℕ) (f : ℕ) :
    build_histogram d p idx f
      = (List.range p.n_bins).map (fun b =>
          (gradSum d (idx.filter (fun i => d.binned i f = b)),
           hessSum d (idx.filter (fun i => d.binned i f = b)),
           (idx.filter (fun i => d.binned i f = b)).length)) := by
  induction idx using List.reverseRecOn with
  | nil =>
    rw [build_histogram]
    simp only [List.foldl_nil, List.filter_nil]
    rw [show (fun b : ℕ =>
        (gradSum d [], hessSum d [], ([] : List ℕ).length))
      = (fun _ : ℕ => ((0 : ℚ), (0 : ℚ), (0 : ℕ))) from rfl]
    rw [map_range_const]
  | append_singleton ys x ih =>
    have hstep : build_histogram d p (ys ++ [x]) f
        = histBump (d.gradient x) (d.hessian x) (d.binned x f)
            (build_histogram d p ys f) := by
      rw [build_histogram, build_histogram, List.foldl_append, List.foldl_cons,
        List.foldl_nil]
    rw [hstep, ih]
    by_cases hb : d.binned x f < p.n_bins
    · have hget : ((List.range p.n_bins).map (fun b =>
          (gradSum d (ys.filter (fun i => d.binned i f = b)),
           hessSum d (ys.filter (fun i => d.binned i f = b)),
           (ys.filter (fun i => d.binned i f = b)).length)))[d.binned x f]?
          = some (gradSum d (ys.filter
                (fun i => d.binned i f = d.binned x f)),
             hessSum d (ys.filter (fun i => d.binned i f = d.binned x f)),
             (ys.filter (fun i => d.binned i f = d.binned x f)).length) := by
        rw [List.getElem?_map, List.getElem?_range hb]
        rfl
      rw [histBump_eq_some _ _ _ _ _ hget, map_range_set _ _ _ _ hb]
      apply List.map_congr_left
      intro b hb2
      by_cases hxb : b = d.binned x f
      · rw [if_pos hxb]
        have hfil : (ys ++ [x]).filter (fun i => d.binned i f = b)
            = ys.filter (fun i => d.binned i f = b) ++ [x] := by
          rw [List.filter_append]
          simp [hxb.symm]
        rw [hfil, gradSum_append, hessSum_append, List.length_append, hxb]
        simp [gradSum_cons, hessSum_cons, gradSum, hessSum]
      · rw [if_neg hxb]
        have hxb2 : ¬ d.binned x f = b := fun hcontr => hxb hcontr.symm
        have hfil : (ys ++ [x]).filter (fun i => d.binned i f = b)
            = ys.filter (fun i => d.binned i f = b) := by
          rw [List.filter_append]
          simp [hxb2]
        rw [hfil]
    · rw [histBump_eq_none _ _ _ _
        (List.getElem?_eq_none (by simp; omega))]
      apply List.map_congr_left
      intro b hb2
      have hxb : d.binned x f ≠ b := by
        have := List.mem_range.mp hb2
        omega
      have hfil : (ys ++ [x]).filter (fun i => d.binned i f = b)
          = ys.filter (fun i => d.binned i f = b) := by
        rw [List.filter_append]
        simp [hxb]
      rw [hfil]

theorem filter_le_succ_map_sum {M : Type} [AddCommMonoid M] (v : ℕ → M)
    (q : ℕ → ℕ) (l : List ℕ) (t : ℕ) :
    ((l.filter (fun i => q i ≤ t + 1)).map v).sum
      = ((l.filter (fun i => q i ≤ t)).map v).sum
        + ((l.filter (fun i => q i = t + 1)).map v).sum := by
  induction l with
  | nil => simp
  | cons x xs ih =>
    by_cases h1 : q x ≤ t
    · rw [List.filter_cons_of_pos (by simp; omega),
        List.filter_cons_of_pos (by simpa using h1),
        List.filter_cons_of_neg (by simp; omega)]
      simp only [List.map_cons, List.sum_cons, ih]
      rw [add_assoc]
    · by_cases h2 : q x = t + 1
      · rw [List.filter_cons_of_pos (by simp; omega),
          List.filter_cons_of_neg (by simpa using h1),
          List.filter_cons_of_pos (by simp; omega)]
        simp only [List.map_cons, List.sum_cons, ih]
        rw [add_left_comm]
      · rw [List.filter_cons_of_neg (by simp; omega),
          List.filter_cons_of_neg (by simpa using h1),
          List.filter_cons_of_neg (by simp; omega)]
        exact ih

theorem range_sum_filter {M : Type} [AddCommMonoid M] (v : ℕ → M)
    (q : ℕ → ℕ) (l : List ℕ) :
    ∀ t : ℕ, ((List.range (t + 1)).map
        (fun b => ((l.filter (fun i => q i = b)).map v).sum)).sum
      = ((l.filter (fun i => q i ≤ t)).map v).sum := by
  intro t
  induction t with
  | zero =>
    rw [show List.range 1 = [0] from rfl]
    simp only [List.map_cons, List.map_nil, List.sum_cons, List.sum_nil,
      add_zero]
    have hfil : (l.filter (fun i => q i ≤ 0)) = (l.filter (fun i => q i = 0)) := by
      apply List.filter_congr
      intro x _
      simp [Nat.le_zero]
    rw [hfil]
  | succ t ih =>
    rw [List.range_succ, List.map_append, List.sum_append, ih]
    simp only [List.map_cons, List.map_nil, List.sum_cons, List.sum_nil,
      add_zero]
    rw [filter_le_succ_map_sum]

theorem gradSum_eq_map_sum (d : TrainingData) (l : List ℕ) :
    gradSum d l = (l.map d.gradient).sum := by
  induction l with
  | nil => rfl
  | cons x xs ih => rw [gradSum_cons, List.map_cons, List.sum_cons, ih]

theorem hessSum_eq_map_sum (d : TrainingData) (l : List ℕ) :
    hessSum d l = (l.map d.hessian).sum := by
  induction l with
  | nil => rfl
  | cons x xs ih => rw [hessSum_cons, List.map_cons, List.sum_cons, ih]

theorem length_eq_map_sum (l : List ℕ) :
    l.length = (l.map (fun _ => (1 : ℕ))).sum := by
  induction l with
  | nil => rfl
  | cons x xs ih =>
    rw [List.length_cons, List.map_cons, List.sum_cons, ih]
    omega

/-- Every split produced by the per-feature scan records: its feature, a
cut position, running left sums over the bins up to the cut, right sums as
total minus left, the regularized gain of those sums, and the
`min_samples_leaf` admissibility of both sides. -/
theorem scanBins_mem_characterize (p : GrowerParams) (f : ℕ)
    (gTot hTot : ℚ) (n : ℕ) :
    ∀ (hist : List (ℚ × ℚ × ℕ)) (b : ℕ) (gl hl : ℚ) (nl : ℕ)
      (si : SplitInfo), si ∈ scanBins p f gTot hTot n hist b gl hl nl →
      ∃ t, t < hist.length
        ∧ si.feature_idx = f
        ∧ si.bin_idx = b + t
        ∧ si.gradient_left = gl + ((hist.take (t + 1)).map (fun e => e.1)).sum
        ∧ si.hessian_left
          = hl + ((hist.take (t + 1)).map (fun e => e.2.1)).sum
        ∧ si.n_samples_left
          = nl + ((hist.take (t + 1)).map (fun e => e.2.2)).sum
        ∧ si.gradient_right = gTot - si.gradient_left
        ∧ si.hessian_right = hTot - si.hessian_left
        ∧ si.n_samples_right = n - si.n_samples_left
        ∧ si.gain = split_gain p si.gradient_left si.hessian_left
            si.gradient_right si.hessian_right gTot hTot
        ∧ p.min_samples_leaf ≤ si.n_samples_left
        ∧ p.min_samples_leaf ≤ n - si.n_samples_left := by
  intro hist
  induction hist with
  | nil =>
    intro b gl hl nl si h
    rw [scanBins] at h
    exact absurd h (by simp)
  | cons e rest ih =>
    intro b gl hl nl si h
    rw [scanBins] at h
    have htail : si ∈ scanBins p f gTot hTot n rest (b + 1) (gl + e.1)
        (hl + e.2.1) (nl + e.2.2) → _ := ih (b + 1) (gl + e.1) (hl + e.2.1)
      (nl + e.2.2) si
    by_cases hcond : p.min_samples_leaf ≤ nl + e.2.2
        ∧ p.min_samples_leaf ≤ n - (nl + e.2.2)
    · rw [if_pos hcond] at h
      rcases List.mem_cons.mp h with hsi | hrest
      · refine ⟨0, by simp, ?_, ?_, ?_, ?_, ?_, ?_, ?_, ?_, ?_, ?_, ?_⟩
          <;> rw [hsi] <;> simp [hcond.1, hcond.2]
      · rcases htail hrest with
          ⟨t, ht, h1, h2, h3, h4, h5, h6, h7, h8, h9, h10, h11⟩
        refine ⟨t + 1, by simpa using ht, h1, by omega, ?_, ?_, ?_,
          h6, h7, h8, h9, h10, h11⟩
        · rw [h3, List.take_succ_cons, List.map_cons, List.sum_cons]
          ring
        · rw [h4, List.take_succ_cons, List.map_cons, List.sum_cons]
          ring
        · rw [h5, List.take_succ_cons, List.map_cons, List.sum_cons]
          omega
    · rw [if_neg hcond] at h
      rcases htail h with
        ⟨t, ht, h1, h2, h3, h4, h5, h6, h7, h8, h9, h10, h11⟩
      refine ⟨t + 1, by simpa using ht, h1, by omega, ?_, ?_, ?_,
        h6, h7, h8, h9, h10, h11⟩
      · rw [h3, List.take_succ_cons, List.map_cons, List.sum_cons]
        ring
      · rw [h4, List.take_succ_cons, List.map_cons, List.sum_cons]
        ring
      · rw [h5, List.take_succ_cons, List.map_cons, List.sum_cons]
        omega

theorem take_range {m n : ℕ} (h : m ≤ n) :
    (List.range n).take m = List.range m := by
  rw [show n = m + (n - m) by omega, List.range_add]
  exact List.take_left' (by simp)

/-- Every candidate split of a node describes a genuine partition of the
node's samples by "code on the split feature at most the cut bin": its
recorded aggregates are the sums over the two sides, its gain is the
regularized gain of those sums, and both sides satisfy
`min_samples_leaf`. -/
theorem candidate_characterize {d : TrainingData} {p : GrowerParams}
    {idx : List ℕ} {gTot hTot : ℚ} {si : SplitInfo}
    (h : si ∈ nodeCandidates d p idx gTot hTot idx.length) :
    si.feature_idx < d.n_features
      ∧ si.gradient_left = gradSum d (leftIndices d si idx)
      ∧ si.hessian_left = hessSum d (leftIndices d si idx)
      ∧ si.n_samples_left = (leftIndices d si idx).length
      ∧ si.gradient_right = gTot - si.gradient_left
      ∧ si.hessian_right = hTot - si.hessian_left
      ∧ si.n_samples_right = idx.length - si.n_samples_left
      ∧ si.gain = split_gain p si.gradient_left si.hessian_left
          si.gradient_right si.hessian_right gTot hTot
      ∧ p.min_samples_leaf ≤ si.n_samples_left
      ∧ p.min_samples_leaf ≤ idx.length - si.n_samples_left := by
  rcases nodeCandidates_mem_iff.mp h with ⟨f, hf, hfeat⟩
  rw [featureCandidates, build_histogram_eq] at hfeat
  rcases scanBins_mem_characterize p f gTot hTot idx.length _ 0 0 0 0 si
      hfeat with ⟨t, ht, h1, h2, h3, h4, h5, h6, h7, h8, h9, h10, h11⟩
  have htn : t < p.n_bins := by simpa using ht
  have hbin : si.bin_idx = t := by
    rw [h2]
    omega
  have htake : ∀ {α : Type} (G : ℕ → α),
      ((List.range p.n_bins).map G).take (t + 1)
        = (List.range (t + 1)).map G := by
    intro α G
    rw [← List.map_take, take_range (by omega)]
  have hleft : leftIndices d si idx
      = idx.filter (fun i => d.binned i f ≤ t) := by
    rw [leftIndices, h1, hbin]
  have hg : si.gradient_left = gradSum d (leftIndices d si idx) := by
    rw [h3, htake, List.map_map, hleft]
    simp only [Function.comp_def]
    rw [gradSum_eq_map_sum d (idx.filter (fun i => d.binned i f ≤ t)),
      ← range_sum_filter d.gradient (fun i => d.binned i f) idx t]
    simp only [gradSum_eq_map_sum]
    ring
  have hh : si.hessian_left = hessSum d (leftIndices d si idx) := by
    rw [h4, htake, List.map_map, hleft]
    simp only [Function.comp_def]
    rw [hessSum_eq_map_sum d (idx.filter (fun i => d.binned i f ≤ t)),
      ← range_sum_filter d.hessian (fun i => d.binned i f) idx t]
    simp only [hessSum_eq_map_sum]
    ring
  have hnl : si.n_samples_left = (leftIndices d si idx).length := by
    rw [h5, htake, List.map_map, hleft]
    simp only [Function.comp_def]
    rw [length_eq_map_sum (idx.filter (fun i => d.binned i f ≤ t)),
      ← range_sum_filter (fun _ => (1 : ℕ)) (fun i => d.binned i f) idx t]
    simp only [length_eq_map_sum]
    omega
  exact ⟨h1 ▸ hf, hg, hh, hnl, h6, h7, h8, h9, hnl ▸ h10, hnl ▸ h11⟩

/-- When a node's totals are the true sums over its samples, a candidate's
right aggregates are the sums over the right side of its partition. -/
theorem candidate_right_sums {d : TrainingData} {p : GrowerParams}
    {idx : List ℕ} {gTot hTot : ℚ} {si : SplitInfo}
    (h : si ∈ nodeCandidates d p idx gTot hTot idx.length)
    (hG : gTot = gradSum d idx) (hH : hTot = hessSum d idx) :
    si.gradient_right = gradSum d (rightIndices d si idx)
      ∧ si.hessian_right = hessSum d (rightIndices d si idx)
      ∧ si.n_samples_right = (rightIndices d si idx).length := by
  obtain ⟨-, hg, hh, hnl, h6, h7, h8, -, -, -⟩ := candidate_characterize h
  have hpart := gradSum_filter_partition d idx
    (fun i => d.binned i si.feature_idx ≤ si.bin_idx)
  have hparth := hessSum_filter_partition d idx
    (fun i => d.binned i si.feature_idx ≤ si.bin_idx)
  have hlen : (leftIndices d si idx).length
      + (rightIndices d si idx).length = idx.length := by
    rw [leftIndices, rightIndices]
    exact length_filter_not_add
  refine ⟨?_, ?_, ?_⟩
  · rw [h6, hg, hG, leftIndices, rightIndices] at *
    rw [hpart]
    ring
  · rw [h7, hh, hH, leftIndices, rightIndices] at *
    rw [hparth]
    ring
  · rw [h8, hnl]
    omega

/-- A candidate split that passes the gain threshold has two nonempty
sides, provided `min_samples_leaf` is at least one or the gain threshold is
positive (a cut with an empty side has gain exactly zero). -/
theorem candidate_sides_nonempty {d : TrainingData} {p : GrowerParams}
    {idx : List ℕ} {gTot hTot : ℚ} {si : SplitInfo}
    (h : si ∈ nodeCandidates d p idx gTot hTot idx.length)
    (hG : gTot = gradSum d idx) (hH : hTot = hessSum d idx)
    (hgain : p.min_gain_to_split ≤ si.gain)
    (hnd : 1 ≤ p.min_samples_leaf ∨ 0 < p.min_gain_to_split) :
    leftIndices d si idx ≠ [] ∧ rightIndices d si idx ≠ [] := by
  obtain ⟨-, hg, hh, hnl, h6, h7, h8, h9, h10, h11⟩ := candidate_characterize h
  obtain ⟨hrg, hrh, hrn⟩ := candidate_right_sums h hG hH
  rcases hnd with hmsl | hpos
  · constructor
    · intro hemp
      rw [hemp] at hnl
      simp only [List.length_nil] at hnl
      omega
    · intro hemp
      rw [hemp] at hrn
      simp only [List.length_nil] at hrn
      omega
  · constructor
    · intro hemp
      rw [hemp] at hg hh
      have hgl : si.gradient_left = 0 := by rw [hg]; rfl
      have hhl : si.hessian_left = 0 := by rw [hh]; rfl
      have : si.gain = 0 := by
        rw [h9, hgl, hhl, h6, h7, hgl, hhl, split_gain]
        ring
      rw [this] at hgain
      exact absurd hgain (not_le.mpr hpos)
    · intro hemp
      rw [hemp] at hrg hrh
      have hgr : si.gradient_right = 0 := by rw [hrg]; rfl
      have hhr : si.hessian_right = 0 := by rw [hrh]; rfl
      have hglG : si.gradient_left = gTot := by
        have := h6
        rw [hgr] at this
        linarith
      have hhlH : si.hessian_left = hTot := by
        have := h7
        rw [hhr] at this
        linarith
      have : si.gain = 0 := by
        rw [h9, hgr, hhr, hglG, hhlH, split_gain]
        ring
      rw [this] at hgain
      exact absurd hgain (not_le.mpr hpos)

theorem arena_length (d : TrainingData) (s : GrowerState) (pid : ℕ)
    (si : SplitInfo) :
    (arenaAfterSplit d s pid si).length = s.nodes.length + 2 := by
  simp [arenaAfterSplit]

theorem arena_getD_left (d : TrainingData) (s : GrowerState) (pid : ℕ)
    (si : SplitInfo) :
    (arenaAfterSplit d s pid si).getD s.nodes.length default
      = childNode ((s.nodes.getD pid default).depth + 1)
          (leftIndices d si (s.nodes.getD pid default).sample_indices)
          si.gradient_left si.hessian_left := by
  rw [arenaAfterSplit, getD_append_right (by simp)]
  simp

theorem arena_getD_right (d : TrainingData) (s : GrowerState) (pid : ℕ)
    (si : SplitInfo) :
    (arenaAfterSplit d s pid si).getD (s.nodes.length + 1) default
      = childNode ((s.nodes.getD pid default).depth + 1)
          (rightIndices d si (s.nodes.getD pid default).sample_indices)
          si.gradient_right si.hessian_right := by
  rw [arenaAfterSplit, getD_append_right (by simp)]
  simp

theorem arena_getD_pid (d : TrainingData) (s : GrowerState) (pid : ℕ)
    (si : SplitInfo) (hpid : pid < s.nodes.length) :
    (arenaAfterSplit d s pid si).getD pid default
      = { s.nodes.getD pid default with
          left_child := some s.nodes.length,
          right_child := some (s.nodes.length + 1) } := by
  rw [arenaAfterSplit, getD_append_left (by simpa using hpid),
    getD_set_self (by simpa using hpid)]

theorem arena_getD_other (d : TrainingData) (s : GrowerState) (pid : ℕ)
    (si : SplitInfo) (id : ℕ) (hne : id ≠ pid) (hid : id < s.nodes.length) :
    (arenaAfterSplit d s pid si).getD id default
      = s.nodes.getD id default := by
  rw [arenaAfterSplit, getD_append_left (by simpa using hid),
    getD_set_ne (fun h => hne h.symm)]

theorem finalize_leaf_idem (p : GrowerParams) (nd : TreeNode) :
    finalize_leaf p (finalize_leaf p nd) = finalize_leaf p nd := rfl

theorem finalizeMany_getD_not_mem (p : GrowerParams) (ids : List ℕ)
    (ns : List TreeNode) (id : ℕ) (h : id ∉ ids) :
    (finalizeMany p ns ids).getD id default = ns.getD id default := by
  induction ids generalizing ns with
  | nil => rfl
  | cons a rest ih =>
    rw [finalizeMany, ih _ (fun hm => h (List.mem_cons_of_mem _ hm)),
      getD_set_ne (fun he => h (by rw [← he]; exact List.mem_cons_self _ _))]

theorem finalizeMany_getD_mem (p : GrowerParams) (ids : List ℕ)
    (ns : List TreeNode) (id : ℕ) (hmem : id ∈ ids) (hid : id < ns.length) :
    (finalizeMany p ns ids).getD id default
      = finalize_leaf p (ns.getD id default) := by
  induction ids generalizing ns with
  | nil => exact absurd hmem (by simp)
  | cons a rest ih =>
    rw [finalizeMany]
    by_cases hmem2 : id ∈ rest
    · rw [ih _ hmem2 (by rw [List.length_set]; exact hid)]
      by_cases ha : a = id
      · subst ha
        rw [getD_set_self hid, finalize_leaf_idem]
      · rw [getD_set_ne ha]
    · have ha : a = id := by
        rcases List.mem_cons.mp hmem with h1 | h1
        · exact h1.symm
        · exact absurd h1 hmem2
      subst ha
      rw [finalizeMany_getD_not_mem _ _ _ _ hmem2, getD_set_self hid]

/-- Case analysis of `processNode`: either the node is classified
splittable with a recorded above-threshold best split and otherwise
unchanged fields, or it is finalized with the shrinkage-formula value and
weight of its own aggregates. -/
theorem processNode_cases (d : TrainingData) (p : GrowerParams)
    (nd : TreeNode) :
    ((processNode d p nd).2 = true
        ∧ ∃ si, find_node_split d p nd.sample_indices nd.sum_gradients
              nd.sum_hessians nd.sample_indices.length = some si
            ∧ p.min_gain_to_split ≤ si.gain
            ∧ (processNode d p nd).1 = { nd with split_info := some si })
      ∨ ((processNode d p nd).2 = false
        ∧ (processNode d p nd).1.value
          = some (leaf_value p nd.sum_gradients nd.sum_hessians)
        ∧ (processNode d p nd).1.weight
          = some (leaf_weight p nd.sum_gradients nd.sum_hessians)
        ∧ (processNode d p nd).1.sum_gradients = nd.sum_gradients
        ∧ (processNode d p nd).1.sum_hessians = nd.sum_hessians) := by
  unfold processNode
  split
  · right
    exact ⟨rfl, rfl, rfl, rfl, rfl⟩
  · rcases hfind : find_node_split d p nd.sample_indices nd.sum_gradients
        nd.sum_hessians nd.sample_indices.length with _ | si
    · right
      exact ⟨rfl, rfl, rfl, rfl, rfl⟩
    · dsimp only
      by_cases hgain : si.gain < p.min_gain_to_split
      · right
        rw [if_pos hgain]
        exact ⟨rfl, rfl, rfl, rfl, rfl⟩
      · left
        rw [if_neg hgain]
        exact ⟨rfl, si, rfl, le_of_not_lt hgain, rfl⟩

theorem getD_singleton_ne {α : Type} {x dv : α} {id : ℕ} (h : id ≠ 0) :
    ([x] : List α).getD id dv = dv := by
  rcases id with _ | n
  · exact absurd rfl h
  · rcases n <;> rfl

/-- The grower's invariant holds right after initialization. -/
theorem growerInv_init (d : TrainingData) (p : GrowerParams) :
    GrowerInv d p (initGrower d p) := by
  rw [initGrower]
  split
  · refine ⟨List.nodup_nil, ?_, ?_, ?_, ?_⟩
    · intro id hid
      exact absurd hid (by simp)
    · intro id hid
      have hid0 : id = 0 := by simpa using hid
      subst hid0
      exact ⟨by simp, rfl, rfl⟩
    · intro id hid
      by_cases h0 : id = 0
      · subst h0
        exact absurd (List.mem_singleton.mpr rfl) hid
      · show ((_ : List TreeNode).getD id default).value = none
        rw [getD_singleton_ne h0]
        rfl
    · intro m hm hne
      exact absurd rfl hne
  · rename_i hcap
    dsimp only
    rcases processNode_cases d p
        { sample_indices := List.range d.n_samples, depth := 0,
          sum_gradients := gradSum d (List.range d.n_samples),
          sum_hessians := hessSum d (List.range d.n_samples),
          split_info := none, value := none, weight := none,
          left_child := none, right_child := none } with
      hsplit | hsplit
    · obtain ⟨htrue, si, hfind, hgain, heq⟩ := hsplit
      simp only [htrue, eq_self_iff_true, if_true]
      refine ⟨by simp, ?_, ?_, ?_, ?_⟩
      · intro id hid
        have hid0 : id = 0 := by simpa using hid
        subst hid0
        simp only [nodeAt, List.getD_cons_zero, heq]
        refine ⟨by simp, trivial, trivial, trivial, ⟨si, rfl, hgain, ?_⟩⟩
        rw [nodeCandidatesOf]
        exact find_node_split_mem hfind
      · intro id hid
        exact absurd hid (by simp)
      · intro id hid
        by_cases h0 : id = 0
        · subst h0
          simp only [nodeAt, List.getD_cons_zero, heq]
        · simp only [nodeAt]
          rw [getD_singleton_ne h0]
          rfl
      · intro m hm hne
        have hm2 : ¬ (match p.max_leaf_nodes with
            | some m => decide (m ≤ 1) | none => false) = true := hcap
        rw [hm] at hm2
        simp only [decide_eq_true_eq] at hm2
        simp only [List.length_nil, List.length_cons]
        omega
    · obtain ⟨hfalse, hval, hwt, hsg, hsh⟩ := hsplit
      simp only [hfalse, Bool.false_eq_true, if_false]
      refine ⟨List.nodup_nil, ?_, ?_, ?_, ?_⟩
      · intro id hid
        exact absurd hid (by simp)
      · intro id hid
        have hid0 : id = 0 := by simpa using hid
        subst hid0
        refine ⟨by simp, ?_, ?_⟩
        · simp only [nodeAt, List.getD_cons_zero]
          rw [hval, hsg, hsh]
        · simp only [nodeAt, List.getD_cons_zero]
          rw [hwt, hsg, hsh]
      · intro id hid
        by_cases h0 : id = 0
        · subst h0
          exact absurd (List.mem_singleton.mpr rfl) hid
        · simp only [nodeAt]
          rw [getD_singleton_ne h0]
          rfl
      · intro m hm hne
        exact absurd rfl hne

theorem getD_of_length_le {α : Type} {l : List α} {i : ℕ} {dv : α}
    (h : l.length ≤ i) : l.getD i dv = dv := by
  simp [List.getD_eq_getElem?_getD, List.getElem?_eq_none h]

theorem filter_ne_length {l : List ℕ} {pid : ℕ} (hnodup : l.Nodup)
    (hmem : pid ∈ l) :
    (l.filter (fun id => decide (id ≠ pid))).length + 1 = l.length := by
  induction l with
  | nil => exact absurd hmem (by simp)
  | cons a rest ih =>
    by_cases ha : a = pid
    · subst ha
      rw [List.filter_cons_of_neg (by simp)]
      have hnot : a ∉ rest := (List.nodup_cons.mp hnodup).1
      rw [List.filter_eq_self.mpr, List.length_cons]
      intro b hb
      simp only [decide_eq_true_eq]
      intro hba
      exact hnot (hba ▸ hb)
    · rw [List.filter_cons_of_pos (by simpa using ha), List.length_cons,
        List.length_cons,
        ih (List.nodup_cons.mp hnodup).2
          (by rcases List.mem_cons.mp hmem with h1 | h1
              exacts [absurd h1.symm ha, h1])]

theorem filter_ne_map_sum {M : Type} [AddCommMonoid M] (F : ℕ → M)
    {l : List ℕ} {pid : ℕ} (hnodup : l.Nodup) (hmem : pid ∈ l) :
    (l.map F).sum
      = F pid + ((l.filter (fun id => decide (id ≠ pid))).map F).sum := by
  induction l with
  | nil => exact absurd hmem (by simp)
  | cons a rest ih =>
    by_cases ha : a = pid
    · subst ha
      rw [List.filter_cons_of_neg (by simp)]
      have hnot : a ∉ rest := (List.nodup_cons.mp hnodup).1
      rw [List.filter_eq_self.mpr, List.map_cons, List.sum_cons]
      intro b hb
      simp only [decide_eq_true_eq]
      intro hba
      exact hnot (hba ▸ hb)
    · rw [List.filter_cons_of_pos (by simpa using ha), List.map_cons,
        List.map_cons, List.sum_cons, List.sum_cons,
        ih (List.nodup_cons.mp hnodup).2
          (by rcases List.mem_cons.mp hmem with h1 | h1
              exacts [absurd h1.symm ha, h1])]
      rw [add_left_comm]

theorem disjoint_singleton_of_not_mem {l : List ℕ} {a : ℕ} (ha : a ∉ l) :
    l.Disjoint [a] := by
  intro x hx hxa
  rw [List.mem_singleton] at hxa
  exact ha (hxa ▸ hx)

theorem nodup_append_if_pair {l : List ℕ} {a b : ℕ} (hl : l.Nodup)
    (ha : a ∉ l) (hb : b ∉ l) (hab : a ≠ b) (c1 c2 : Bool) :
    (l ++ (if c1 = true then [a] else [])
      ++ (if c2 = true then [b] else [])).Nodup := by
  rw [List.nodup_append, List.nodup_append]
  refine ⟨⟨hl, ?_, ?_⟩, ?_, ?_⟩
  · cases c1
    · exact List.nodup_nil
    · exact List.nodup_singleton a
  · cases c1
    · intro x hx hx2
      exact absurd hx2 (by simp)
    · exact disjoint_singleton_of_not_mem ha
  · cases c2
    · exact List.nodup_nil
    · exact List.nodup_singleton b
  · cases c2
    · intro x hx hx2
      exact absurd hx2 (by simp)
    · intro x hx hx2
      have hx2b : x = b := by simpa using hx2
      subst hx2b
      rcases List.mem_append.mp hx with h1 | h1
      · exact hb h1
      · cases c1
        · exact absurd h1 (by simp)
        · have h1a : x = a := by simpa using h1
          exact hab h1a.symm

theorem mem_if_singleton {c : Bool} {a id : ℕ}
    (h : id ∈ (if c = true then [a] else [])) : c = true ∧ id = a := by
  cases c
  · exact absurd h (by simp)
  · exact ⟨rfl, by simpa using h⟩

theorem mem_if_singleton_neg {c : Bool} {a id : ℕ}
    (h : id ∈ (if c = true then [] else [a])) : c = false ∧ id = a := by
  cases c
  · exact ⟨rfl, by simpa using h⟩
  · exact absurd h (by simp)

theorem not_mem_if_singleton_neg {c : Bool} {a : ℕ}
    (h : a ∉ (if c = true then [] else [a])) : c = true := by
  cases c
  · exact absurd (by simp) h
  · rfl

/-- Classifying a fresh child node: an arena position holding the processed
child satisfies the splittable requirements when `processNode` marks it
splittable, and the finalized-leaf requirements when it finalizes it. -/
theorem noncap_child_ok (d : TrainingData) (p : GrowerParams)
    (dep : ℕ) (smp : List ℕ) (g h : ℚ)
    (hg : g = gradSum d smp) (hh : h = hessSum d smp) :
    ((processNode d p (childNode dep smp g h)).2 = true →
        ∀ (ns : List TreeNode) (id : ℕ),
          ns.getD id default = (processNode d p (childNode dep smp g h)).1 →
          id < ns.length → splittableOK d p ns id)
      ∧ ((processNode d p (childNode dep smp g h)).2 = false →
        ∀ (ns : List TreeNode) (id : ℕ),
          ns.getD id default = (processNode d p (childNode dep smp g h)).1 →
          id < ns.length → finalizedOK p ns id) := by
  rcases processNode_cases d p (childNode dep smp g h) with
    ⟨h2, si, hfind, hgain, heq⟩ | ⟨h2, hval, hwt, hsg, hsh⟩
  · constructor
    · intro _ ns id hns hlt
      simp only [splittableOK]
      rw [hns, heq]
      refine ⟨hlt, rfl, hg, hh, si, rfl, hgain, ?_⟩
      rw [nodeCandidatesOf]
      exact find_node_split_mem hfind
    · intro h2f
      rw [h2] at h2f
      simp at h2f
  · constructor
    · intro h2t
      rw [h2] at h2t
      simp at h2t
    · intro _ ns id hns hlt
      simp only [finalizedOK]
      rw [hns]
      refine ⟨hlt, ?_, ?_⟩
      · rw [hsg, hsh]
        exact hval
      · rw [hsg, hsh]
        exact hwt

/-- Packaging lemma: the grower invariant for an explicitly given state. -/
theorem growerInv_mk (d : TrainingData) (p : GrowerParams)
    (ns : List TreeNode) (sp fin : List ℕ)
    (h1 : sp.Nodup)
    (h2 : ∀ id ∈ sp, splittableOK d p ns id)
    (h3 : ∀ id ∈ fin, finalizedOK p ns id)
    (h4 : ∀ id, id ∉ fin → (ns.getD id default).value = none)
    (h5 : ∀ m, p.max_leaf_nodes = some m → sp ≠ [] →
        fin.length + sp.length < m) :
    GrowerInv d p
      { nodes := ns, splittable_nodes := sp, finalized_leaves := fin } :=
  ⟨h1, h2, h3, h4, h5⟩

/-- The grower's invariant is preserved by applying a split to the popped
node. -/
theorem growerInv_splitApplied (d : TrainingData) (p : GrowerParams)
    (s : GrowerState) (pid : ℕ) (si : SplitInfo)
    (hinv : GrowerInv d p s) (hpid : pid ∈ s.splittable_nodes)
    (hsi : (nodeAt s pid).split_info = some si) :
    GrowerInv d p (splitApplied d p s pid si).1 := by
  obtain ⟨hnodup, hsplit, hfin, hnov, hcap⟩ := hinv
  obtain ⟨hplen, hpval, hpg, hph, si2, hsi2, hgain2, hcand2⟩ := hsplit pid hpid
  have hsieq : si2 = si := by
    rw [hsi] at hsi2
    injection hsi2.symm
  rw [hsieq] at hgain2 hcand2
  have hcand : si ∈ nodeCandidates d p (nodeAt s pid).sample_indices
      (nodeAt s pid).sum_gradients (nodeAt s pid).sum_hessians
      (nodeAt s pid).sample_indices.length := hcand2
  obtain ⟨hfeat, hgl, hhl, hnl, -, -, -, -, -, -⟩ := candidate_characterize hcand
  obtain ⟨hgr, hhr, hnr⟩ := candidate_right_sums hcand hpg hph
  simp only [nodeAt] at hgl hhl hgr hhr
  have hdisj : ∀ id ∈ s.finalized_leaves, id ∉ s.splittable_nodes := by
    intro id hid hid2
    have h1 := (hfin id hid).2.1
    have h2 := (hsplit id hid2).2.1
    rw [h1] at h2
    exact Option.noConfusion h2
  have hpid_not_fin : pid ∉ s.finalized_leaves := fun hmem =>
    hdisj pid hmem hpid
  have hq1mem : ∀ {id : ℕ}, id ∈ s.splittable_nodes.filter
      (fun id => id ≠ pid) ↔ id ∈ s.splittable_nodes ∧ id ≠ pid := by
    intro id
    simp [List.mem_filter]
  have hq1len : (s.splittable_nodes.filter (fun id => id ≠ pid)).length + 1
      = s.splittable_nodes.length := filter_ne_length hnodup hpid
  have hq1bound : ∀ id ∈ s.splittable_nodes.filter (fun id => id ≠ pid),
      id < s.nodes.length := by
    intro id hid
    exact (hsplit id (hq1mem.mp hid).1).1
  have halen := arena_length d s pid si
  have hgetq1 : ∀ id ∈ s.splittable_nodes.filter (fun id => id ≠ pid),
      (arenaAfterSplit d s pid si).getD id default = nodeAt s id := by
    intro id hid
    exact arena_getD_other d s pid si id (hq1mem.mp hid).2 (hq1bound id hid)
  have hgetfin : ∀ id ∈ s.finalized_leaves,
      (arenaAfterSplit d s pid si).getD id default = nodeAt s id := by
    intro id hid
    exact arena_getD_other d s pid si id
      (fun he => hpid_not_fin (he ▸ hid)) (hfin id hid).1
  rw [splitApplied]
  by_cases hcapb : capReached p s pid = true
  · rw [if_pos hcapb]
    dsimp only
    refine growerInv_mk d p _ _ _ List.nodup_nil ?_ ?_ ?_ ?_
    · intro id hid
      exact absurd hid (by simp)
    · intro id hid
      simp only [finalizedOK]
      have hlen2 : (finalizeMany p (arenaAfterSplit d s pid si)
          (s.nodes.length :: (s.nodes.length + 1)
            :: s.splittable_nodes.filter (fun id => id ≠ pid))).length
          = s.nodes.length + 2 := by
        rw [finalizeMany_length, halen]
      rcases List.mem_append.mp hid with hold | hnew
      · have hnotmem : id ∉ s.nodes.length :: (s.nodes.length + 1)
            :: s.splittable_nodes.filter (fun id => id ≠ pid) := by
          intro hm
          rcases List.mem_cons.mp hm with h1 | h1
          · exact absurd h1 (by have := (hfin id hold).1; omega)
          · rcases List.mem_cons.mp h1 with h2 | h2
            · exact absurd h2 (by have := (hfin id hold).1; omega)
            · exact hdisj id hold (hq1mem.mp h2).1
        rw [finalizeMany_getD_not_mem _ _ _ _ hnotmem, hgetfin id hold]
        exact ⟨by rw [hlen2]; have := (hfin id hold).1; omega,
          (hfin id hold).2.1, (hfin id hold).2.2⟩
      · have hidlt : id < s.nodes.length + 2 := by
          rcases List.mem_cons.mp hnew with h1 | h1
          · omega
          · rcases List.mem_cons.mp h1 with h2 | h2
            · omega
            · have := hq1bound id h2
              omega
        rw [finalizeMany_getD_mem _ _ _ _ hnew (by rw [halen]; exact hidlt)]
        refine ⟨by rw [hlen2]; exact hidlt, rfl, rfl⟩
    · intro id hid
      simp only [List.mem_append, List.mem_cons, not_or] at hid
      obtain ⟨hid1, hid2, hid3, hid4⟩ := hid
      have hnm : id ∉ s.nodes.length :: (s.nodes.length + 1)
          :: s.splittable_nodes.filter (fun id => id ≠ pid) := by
        intro hm
        rcases List.mem_cons.mp hm with h1 | h1
        · exact hid2 h1
        · rcases List.mem_cons.mp h1 with h2 | h2
          · exact hid3 h2
          · exact hid4 h2
      rw [finalizeMany_getD_not_mem _ _ _ _ hnm]
      by_cases hidlen : id < s.nodes.length
      · by_cases hidpid : id = pid
        · rw [hidpid, arena_getD_pid d s pid si (hidpid ▸ hidlen)]
          exact hpval
        · rw [arena_getD_other d s pid si id hidpid hidlen]
          exact hnov id hid1
      · rw [getD_of_length_le (by rw [halen]; omega)]
        rfl
    · intro m hm hne
      exact absurd rfl hne
  · rw [if_neg hcapb]
    dsimp only
    rw [arena_getD_left d s pid si, arena_getD_right d s pid si]
    have hLok := noncap_child_ok d p ((s.nodes.getD pid default).depth + 1)
      (leftIndices d si (s.nodes.getD pid default).sample_indices)
      si.gradient_left si.hessian_left hgl hhl
    have hRok := noncap_child_ok d p ((s.nodes.getD pid default).depth + 1)
      (rightIndices d si (s.nodes.getD pid default).sample_indices)
      si.gradient_right si.hessian_right hgr hhr
    generalize hLpr : processNode d p
        (childNode ((s.nodes.getD pid default).depth + 1)
          (leftIndices d si (s.nodes.getD pid default).sample_indices)
          si.gradient_left si.hessian_left) = lpr
    rw [hLpr] at hLok
    generalize hRpr : processNode d p
        (childNode ((s.nodes.getD pid default).depth + 1)
          (rightIndices d si (s.nodes.getD pid default).sample_indices)
          si.gradient_right si.hessian_right) = rpr
    rw [hRpr] at hRok
    have hns2len : (((arenaAfterSplit d s pid si).set s.nodes.length
        lpr.1).set (s.nodes.length + 1) rpr.1).length
        = s.nodes.length + 2 := by
      rw [List.length_set, List.length_set, halen]
    have hgetL : (((arenaAfterSplit d s pid si).set s.nodes.length
        lpr.1).set (s.nodes.length + 1) rpr.1).getD s.nodes.length default
        = lpr.1 := by
      rw [getD_set_ne (show s.nodes.length + 1 ≠ s.nodes.length by omega),
        getD_set_self (show s.nodes.length
          < (arenaAfterSplit d s pid si).length by rw [halen]; omega)]
    have hgetR : (((arenaAfterSplit d s pid si).set s.nodes.length
        lpr.1).set (s.nodes.length + 1) rpr.1).getD (s.nodes.length + 1)
        default = rpr.1 := by
      rw [getD_set_self (show s.nodes.length + 1
        < ((arenaAfterSplit d s pid si).set s.nodes.length lpr.1).length
        by rw [List.length_set, halen]; omega)]
    have hgetLow : ∀ id, id < s.nodes.length →
        (((arenaAfterSplit d s pid si).set s.nodes.length
          lpr.1).set (s.nodes.length + 1) rpr.1).getD id default
        = (arenaAfterSplit d s pid si).getD id default := by
      intro id hid
      rw [getD_set_ne (show s.nodes.length + 1 ≠ id by omega),
        getD_set_ne (show s.nodes.length ≠ id by omega)]
    refine growerInv_mk d p _ _ _ ?_ ?_ ?_ ?_ ?_
    · exact nodup_append_if_pair (hnodup.filter _)
        (fun hm => absurd (hq1bound _ hm) (by omega))
        (fun hm => absurd (hq1bound _ hm) (by omega))
        (by omega) _ _
    · intro id hid
      rcases List.mem_append.mp hid with h12 | hR
      · rcases List.mem_append.mp h12 with hq | hL
        · have hne := (hq1mem.mp hq).2
          have hlt := hq1bound id hq
          simp only [splittableOK]
          rw [hgetLow id hlt, arena_getD_other d s pid si id hne hlt]
          obtain ⟨-, hval0, hg0, hh0, si0, hsi0, hgain0, hmem0⟩ :=
            hsplit id (hq1mem.mp hq).1
          exact ⟨by rw [hns2len]; omega, hval0, hg0, hh0,
            si0, hsi0, hgain0, hmem0⟩
        · obtain ⟨hb, hideq⟩ := mem_if_singleton hL
          subst hideq
          exact hLok.1 hb _ _ hgetL (by rw [hns2len]; omega)
      · obtain ⟨hb, hideq⟩ := mem_if_singleton hR
        subst hideq
        exact hRok.1 hb _ _ hgetR (by rw [hns2len]; omega)
    · intro id hid
      rcases List.mem_append.mp hid with h12 | hR
      · rcases List.mem_append.mp h12 with hold | hL
        · have hlt := (hfin id hold).1
          have hne : id ≠ pid := fun he => hpid_not_fin (he ▸ hold)
          simp only [finalizedOK]
          rw [hgetLow id hlt, arena_getD_other d s pid si id hne hlt]
          exact ⟨by rw [hns2len]; omega, (hfin id hold).2.1,
            (hfin id hold).2.2⟩
        · obtain ⟨hb, hideq⟩ := mem_if_singleton_neg hL
          subst hideq
          exact hLok.2 hb _ _ hgetL (by rw [hns2len]; omega)
      · obtain ⟨hb, hideq⟩ := mem_if_singleton_neg hR
        subst hideq
        exact hRok.2 hb _ _ hgetR (by rw [hns2len]; omega)
    · intro id hid
      have hid1 : id ∉ s.finalized_leaves := fun h =>
        hid (List.mem_append_left _ (List.mem_append_left _ h))
      by_cases hidl : id = s.nodes.length
      · subst hidl
        have hb : lpr.2 = true := not_mem_if_singleton_neg
          (fun h => hid (List.mem_append_left _ (List.mem_append_right _ h)))
        exact (hLok.1 hb _ _ hgetL (by rw [hns2len]; omega)).2.1
      · by_cases hidr : id = s.nodes.length + 1
        · subst hidr
          have hb : rpr.2 = true := not_mem_if_singleton_neg
            (fun h => hid (List.mem_append_right _ h))
          exact (hRok.1 hb _ _ hgetR (by rw [hns2len]; omega)).2.1
        · by_cases hlt : id < s.nodes.length
          · rw [hgetLow id hlt]
            by_cases hpe : id = pid
            · rw [hpe, arena_getD_pid d s pid si (hpe ▸ hlt)]
              exact hpval
            · rw [arena_getD_other d s pid si id hpe hlt]
              exact hnov id hid1
          · rw [getD_of_length_le (by rw [hns2len]; omega)]
            rfl
    · intro m hm hne
      have hcap2 : ¬ (m ≤ s.finalized_leaves.length
          + (s.splittable_nodes.filter (fun id => id ≠ pid)).length
          + 2) := by
        rw [capReached, hm] at hcapb
        simpa using hcapb
      simp only [ne_eq, decide_not] at hcap2
      cases hb1 : lpr.2 <;> cases hb2 : rpr.2 <;>
        simp [List.length_append] <;> omega

/-- One growth step preserves the grower invariant. -/
theorem growerInv_step (d : TrainingData) (p : GrowerParams)
    (s : GrowerState) (hinv : GrowerInv d p s) :
    GrowerInv d p (growStep d p s) := by
  rw [growStep, split_next]
  rcases hsel : selectBest s with _ | pid
  · exact hinv
  · dsimp only
    rcases hsi : (s.nodes.getD pid default).split_info with _ | si
    · exact hinv
    · exact growerInv_splitApplied d p s pid si hinv
        (selectBest_mem hsel) hsi

/-- Any number of growth steps preserves the grower invariant. -/
theorem growerInv_steps (d : TrainingData) (p : GrowerParams)
    (k : ℕ) (s : GrowerState) (hinv : GrowerInv d p s) :
    GrowerInv d p (growSteps d p k s) := by
  induction k generalizing s with
  | zero => exact hinv
  | succ n ih => exact ih (growStep d p s) (growerInv_step d p s hinv)

/-- Claim C3 (corrected).  In every state reachable by growth steps from
initialization, every finalized leaf carries
`value = -shrinkage * G / (H + l2_regularization + eps)` computed from its
own aggregated sums `G`, `H` — exactly the claimed formula — and the value
is set only when a node becomes a leaf (every non-finalized id has
`value = none`).  However the recorded `weight` of a leaf carries the
opposite sign, `+shrinkage * G / (H + l2_regularization + eps)`: the
claimed formula applied to `weight` would contradict the expected leaf
weights of `test_grow_tree` (a leaf holding only gradient `-1` samples must
have weight `≈ -shrinkage`). -/
theorem leaf_value_formula (d : TrainingData) (p : GrowerParams)
    (k : ℕ) (id : ℕ) :
    (id ∈ (growSteps d p k (initGrower d p)).finalized_leaves →
        (nodeAt (growSteps d p k (initGrower d p)) id).value
          = some (-p.shrinkage
                * (nodeAt (growSteps d p k (initGrower d p)) id).sum_gradients
              / ((nodeAt (growSteps d p k (initGrower d p)) id).sum_hessians
                  + p.l2_regularization + p.eps))
        ∧ (nodeAt (growSteps d p k (initGrower d p)) id).weight
          = some (p.shrinkage
                * (nodeAt (growSteps d p k (initGrower d p)) id).sum_gradients
              / ((nodeAt (growSteps d p k (initGrower d p)) id).sum_hessians
                  + p.l2_regularization + p.eps)))
      ∧ (id ∉ (growSteps d p k (initGrower d p)).finalized_leaves →
          (nodeAt (growSteps d p k (initGrower d p)) id).value = none) := by
  obtain ⟨-, -, hfin, hnov, -⟩ :=
    growerInv_steps d p k (initGrower d p) (growerInv_init d p)
  exact ⟨fun h => ⟨(hfin id h).2.1, (hfin id h).2.2⟩, fun h => hnov id h⟩

/-- Witness for claim C3 at a concrete instance: after the tiny grower's
first split, node 1 is a finalized leaf and its value satisfies the
shrinkage formula. -/
theorem leaf_value_formula_witness :
    1 ∈ (growSteps tinyData tinyParams 1
          (initGrower tinyData tinyParams)).finalized_leaves
    ∧ (nodeAt (growSteps tinyData tinyParams 1
          (initGrower tinyData tinyParams)) 1).value
        = some (-tinyParams.shrinkage
              * (nodeAt (growSteps tinyData tinyParams 1
                  (initGrower tinyData tinyParams)) 1).sum_gradients
            / ((nodeAt (growSteps tinyData tinyParams 1
                  (initGrower tinyData tinyParams)) 1).sum_hessians
                + tinyParams.l2_regularization + tinyParams.eps)) := by
  have hmem : 1 ∈ (growSteps tinyData tinyParams 1
      (initGrower tinyData tinyParams)).finalized_leaves := by
    norm_num [growSteps, growStep, split_next, tinyData, tinyParams,
      initGrower, processNode, find_node_split, nodeCandidates,
      featureCandidates, build_histogram, histBump, scanBins, split_gain,
      betterSplit, selectBest, nodeGain, splitApplied, arenaAfterSplit,
      capReached, finalizeMany, finalize_leaf, leaf_value, leaf_weight,
      gradSum, hessSum, leftIndices, rightIndices, childNode,
      List.range_succ]
  exact ⟨hmem, ((leaf_value_formula tinyData tinyParams 1 1).1 hmem).1⟩

/-- Growth can continue exactly when some splittable node remains. -/
theorem can_split_iff {s : GrowerState} :
    can_split_further s = true ↔ s.splittable_nodes ≠ [] := by
  simp [can_split_further, List.isEmpty_iff]

/-- A state that cannot split further is a fixed point of `growStep`. -/
theorem growStep_of_not_can (d : TrainingData) (p : GrowerParams)
    {s : GrowerState} (h : can_split_further s = false) :
    growStep d p s = s := by
  have hemp : s.splittable_nodes = [] := by
    by_contra hne
    rw [can_split_iff.mpr hne] at h
    exact Bool.noConfusion h
  rw [growStep, split_next, selectBest, hemp]
  rfl

/-- A state that cannot split further is a fixed point of `growSteps`. -/
theorem growSteps_of_not_can (d : TrainingData) (p : GrowerParams)
    (k : ℕ) {s : GrowerState} (h : can_split_further s = false) :
    growSteps d p k s = s := by
  induction k with
  | zero => rfl
  | succ n ih => rw [growSteps, growStep_of_not_can d p h, ih]

theorem foldl_best_some (s : GrowerState) :
    ∀ (l : List ℕ) (b : ℕ), ∃ r, l.foldl
      (fun best id =>
        match best with
        | none => some id
        | some b => if nodeGain s b < nodeGain s id then some id else some b)
      (some b) = some r := by
  intro l
  induction l with
  | nil => intro b; exact ⟨b, rfl⟩
  | cons c rest ih =>
    intro b
    rw [List.foldl_cons]
    dsimp only
    by_cases hlt : nodeGain s b < nodeGain s c
    · rw [if_pos hlt]
      exact ih c
    · rw [if_neg hlt]
      exact ih b

/-- The priority pop succeeds whenever a splittable node remains. -/
theorem selectBest_ne_none {s : GrowerState}
    (h : s.splittable_nodes ≠ []) : ∃ pid, selectBest s = some pid := by
  rw [selectBest]
  rcases hsp : s.splittable_nodes with _ | ⟨a, t⟩
  · exact absurd hsp h
  · rw [List.foldl_cons]
    exact foldl_best_some s t a

/-- Applying a split either exhausts the splittable set (the cap branch) or
increases the leaf count `finalized + splittable` by exactly one. -/
theorem phi_splitApplied (d : TrainingData) (p : GrowerParams)
    (s : GrowerState) (pid : ℕ) (si : SplitInfo)
    (hnodup : s.splittable_nodes.Nodup) (hpid : pid ∈ s.splittable_nodes) :
    can_split_further (splitApplied d p s pid si).1 = false
      ∨ (splitApplied d p s pid si).1.finalized_leaves.length
          + (splitApplied d p s pid si).1.splittable_nodes.length
        = s.finalized_leaves.length + s.splittable_nodes.length + 1 := by
  have hq1 := filter_ne_length hnodup hpid
  simp only [ne_eq, decide_not] at hq1
  rw [splitApplied]
  by_cases hcapb : capReached p s pid = true
  · rw [if_pos hcapb]
    left
    rfl
  · rw [if_neg hcapb]
    right
    dsimp only
    cases hb1 : (processNode d p
        ((arenaAfterSplit d s pid si).getD s.nodes.length default)).2 <;>
      cases hb2 : (processNode d p
        ((arenaAfterSplit d s pid si).getD (s.nodes.length + 1)
          default)).2 <;>
      simp [List.length_append] <;> omega

/-- One effective growth step either stops growth or increases the leaf
count by exactly one. -/
theorem phi_growStep (d : TrainingData) (p : GrowerParams)
    {s : GrowerState} (hinv : GrowerInv d p s)
    (hcan : can_split_further s = true) :
    can_split_further (growStep d p s) = false
      ∨ (growStep d p s).finalized_leaves.length
          + (growStep d p s).splittable_nodes.length
        = s.finalized_leaves.length + s.splittable_nodes.length + 1 := by
  obtain ⟨pid, hsel⟩ := selectBest_ne_none (can_split_iff.mp hcan)
  have hpid := selectBest_mem hsel
  obtain ⟨si, hsi, -, -⟩ := (hinv.2.1 pid hpid).2.2.2.2
  have hsi2 : (s.nodes.getD pid default).split_info = some si := hsi
  rw [growStep, split_next, hsel]
  dsimp only
  rw [hsi2]
  dsimp only
  exact phi_splitApplied d p s pid si hinv.1 hpid

/-- While growth continues, the leaf count grows by one per step. -/
theorem phi_growSteps (d : TrainingData) (p : GrowerParams)
    (k : ℕ) {s : GrowerState} (hinv : GrowerInv d p s)
    (hcan : can_split_further (growSteps d p k s) = true) :
    s.finalized_leaves.length + s.splittable_nodes.length + k
      ≤ (growSteps d p k s).finalized_leaves.length
          + (growSteps d p k s).splittable_nodes.length := by
  induction k generalizing s with
  | zero => exact Nat.le_refl _
  | succ n ih =>
    have hcan0 : can_split_further s = true := by
      by_contra h0
      have h0f : can_split_further s = false := by
        cases hb : can_split_further s
        · rfl
        · exact absurd hb h0
      rw [growSteps, growStep_of_not_can d p h0f,
        growSteps_of_not_can d p n h0f] at hcan
      exact h0 hcan
    rcases phi_growStep d p hinv hcan0 with hstop | heq
    · rw [growSteps, growSteps_of_not_can d p n hstop] at hcan
      rw [hcan] at hstop
      exact Bool.noConfusion hstop
    · have hih := ih (growerInv_step d p s hinv)
        (by rw [growSteps] at hcan; exact hcan)
      rw [growSteps]
      omega

/-- Under a `max_leaf_nodes = m` cap, growth stops within `m` steps. -/
theorem cap_bound (d : TrainingData) (p : GrowerParams) (m : ℕ)
    (hm : p.max_leaf_nodes = some m) :
    can_split_further (growSteps d p m (initGrower d p)) = false := by
  cases hc : can_split_further (growSteps d p m (initGrower d p))
  · rfl
  · exfalso
    have hinv := growerInv_steps d p m (initGrower d p) (growerInv_init d p)
    have hlt := hinv.2.2.2.2 m hm (can_split_iff.mp hc)
    have hge := phi_growSteps d p m (growerInv_init d p) hc
    omega

theorem distinctRows_pos (d : TrainingData) {idx : List ℕ} (h : idx ≠ []) :
    1 ≤ distinctRows d idx := by
  rcases idx with _ | ⟨a, t⟩
  · exact absurd rfl h
  · rw [distinctRows]
    refine Finset.card_pos.mpr ⟨rowVec d a, ?_⟩
    rw [List.mem_toFinset]
    exact List.mem_map_of_mem _ (List.mem_cons_self a t)

theorem rowVec_getD (d : TrainingData) (i f : ℕ) (hf : f < d.n_features) :
    (rowVec d i).getD f 0 = d.binned i f := by
  rw [rowVec, List.getD_eq_getElem?_getD, List.getElem?_map,
    List.getElem?_range hf]
  rfl

/-- The two sides of a split see disjoint sets of distinct rows, so their
distinct-row counts add up to at most the parent's. -/
theorem distinct_split_add (d : TrainingData) (si : SplitInfo)
    (idx : List ℕ) (hf : si.feature_idx < d.n_features) :
    distinctRows d (leftIndices d si idx)
      + distinctRows d (rightIndices d si idx) ≤ distinctRows d idx := by
  rw [distinctRows, distinctRows, distinctRows]
  have hsubL : ((leftIndices d si idx).map (rowVec d)).toFinset
      ⊆ (idx.map (rowVec d)).toFinset := by
    intro v hv
    rw [List.mem_toFinset, List.mem_map] at hv ⊢
    obtain ⟨i, hi, hvi⟩ := hv
    exact ⟨i, List.mem_of_mem_filter hi, hvi⟩
  have hsubR : ((rightIndices d si idx).map (rowVec d)).toFinset
      ⊆ (idx.map (rowVec d)).toFinset := by
    intro v hv
    rw [List.mem_toFinset, List.mem_map] at hv ⊢
    obtain ⟨i, hi, hvi⟩ := hv
    exact ⟨i, List.mem_of_mem_filter hi, hvi⟩
  have hdisj : Disjoint ((leftIndices d si idx).map (rowVec d)).toFinset
      ((rightIndices d si idx).map (rowVec d)).toFinset := by
    rw [Finset.disjoint_left]
    intro v hvl hvr
    rw [List.mem_toFinset, List.mem_map] at hvl hvr
    obtain ⟨i, hi, hvi⟩ := hvl
    obtain ⟨j, hj, hvj⟩ := hvr
    have hib : d.binned i si.feature_idx ≤ si.bin_idx := by
      simpa using List.of_mem_filter hi
    have hjb : ¬ d.binned j si.feature_idx ≤ si.bin_idx := by
      simpa using List.of_mem_filter hj
    have hvig : (rowVec d i).getD si.feature_idx 0
        = (rowVec d j).getD si.feature_idx 0 := by
      rw [hvi, hvj]
    rw [rowVec_getD d i _ hf, rowVec_getD d j _ hf] at hvig
    rw [hvig] at hib
    exact hjb hib
  calc ((leftIndices d si idx).map (rowVec d)).toFinset.card
        + ((rightIndices d si idx).map (rowVec d)).toFinset.card
      = (((leftIndices d si idx).map (rowVec d)).toFinset
          ∪ ((rightIndices d si idx).map (rowVec d)).toFinset).card := by
        rw [Finset.card_union_of_disjoint hdisj]
    _ ≤ (idx.map (rowVec d)).toFinset.card :=
        Finset.card_le_card (Finset.union_subset hsubL hsubR)

/-- Applying a split either exhausts the splittable set (the cap branch) or
strictly decreases the distinct-row termination measure. -/
theorem measure_splitApplied (d : TrainingData) (p : GrowerParams)
    (s : GrowerState) (pid : ℕ) (si : SplitInfo)
    (hinv : GrowerInv d p s) (hpid : pid ∈ s.splittable_nodes)
    (hsi : (nodeAt s pid).split_info = some si)
    (hnd : 1 ≤ p.min_samples_leaf ∨ 0 < p.min_gain_to_split) :
    can_split_further (splitApplied d p s pid si).1 = false
      ∨ growMeasure d (splitApplied d p s pid si).1 + 1
          ≤ growMeasure d s := by
  obtain ⟨hnodup, hsplit, -, -, -⟩ := hinv
  obtain ⟨hplen, -, hpg, hph, si2, hsi2, hgain2, hcand2⟩ := hsplit pid hpid
  have hsieq : si2 = si := by
    rw [hsi] at hsi2
    injection hsi2.symm
  rw [hsieq] at hgain2 hcand2
  have hcand : si ∈ nodeCandidates d p (nodeAt s pid).sample_indices
      (nodeAt s pid).sum_gradients (nodeAt s pid).sum_hessians
      (nodeAt s pid).sample_indices.length := hcand2
  simp only [nodeAt] at hcand hpg hph
  obtain ⟨hfeat, -, -, -, -, -, -, -, -, -⟩ := candidate_characterize hcand
  obtain ⟨hLne, hRne⟩ :=
    candidate_sides_nonempty hcand hpg hph hgain2 hnd
  have hDL := distinctRows_pos d hLne
  have hDR := distinctRows_pos d hRne
  have hsum := distinct_split_add d si
    ((s.nodes.getD pid default).sample_indices) hfeat
  rw [splitApplied]
  by_cases hcapb : capReached p s pid = true
  · rw [if_pos hcapb]
    left
    rfl
  · rw [if_neg hcapb]
    right
    dsimp only
    rw [growMeasure, growMeasure]
    dsimp only
    rw [arena_getD_left d s pid si, arena_getD_right d s pid si]
    have hLsamp : (processNode d p
        (childNode ((s.nodes.getD pid default).depth + 1)
          (leftIndices d si (s.nodes.getD pid default).sample_indices)
          si.gradient_left si.hessian_left)).1.sample_indices
        = leftIndices d si (s.nodes.getD pid default).sample_indices :=
      processNode_sample_indices d p _
    have hRsamp : (processNode d p
        (childNode ((s.nodes.getD pid default).depth + 1)
          (rightIndices d si (s.nodes.getD pid default).sample_indices)
          si.gradient_right si.hessian_right)).1.sample_indices
        = rightIndices d si (s.nodes.getD pid default).sample_indices :=
      processNode_sample_indices d p _
    generalize hLpr : processNode d p
        (childNode ((s.nodes.getD pid default).depth + 1)
          (leftIndices d si (s.nodes.getD pid default).sample_indices)
          si.gradient_left si.hessian_left) = lpr
    rw [hLpr] at hLsamp
    generalize hRpr : processNode d p
        (childNode ((s.nodes.getD pid default).depth + 1)
          (rightIndices d si (s.nodes.getD pid default).sample_indices)
          si.gradient_right si.hessian_right) = rpr
    rw [hRpr] at hRsamp
    have halen := arena_length d s pid si
    have hgetL : (((arenaAfterSplit d s pid si).set s.nodes.length
        lpr.1).set (s.nodes.length + 1) rpr.1).getD s.nodes.length default
        = lpr.1 := by
      rw [getD_set_ne (show s.nodes.length + 1 ≠ s.nodes.length by omega),
        getD_set_self (show s.nodes.length
          < (arenaAfterSplit d s pid si).length by rw [halen]; omega)]
    have hgetR : (((arenaAfterSplit d s pid si).set s.nodes.length
        lpr.1).set (s.nodes.length + 1) rpr.1).getD (s.nodes.length + 1)
        default = rpr.1 := by
      rw [getD_set_self (show s.nodes.length + 1
        < ((arenaAfterSplit d s pid si).set s.nodes.length lpr.1).length
        by rw [List.length_set, halen]; omega)]
    have hgetLow : ∀ id, id < s.nodes.length →
        (((arenaAfterSplit d s pid si).set s.nodes.length
          lpr.1).set (s.nodes.length + 1) rpr.1).getD id default
        = (arenaAfterSplit d s pid si).getD id default := by
      intro id hid
      rw [getD_set_ne (show s.nodes.length + 1 ≠ id by omega),
        getD_set_ne (show s.nodes.length ≠ id by omega)]
    rw [List.map_append, List.map_append, List.sum_append, List.sum_append]
    have hqmap : ((s.splittable_nodes.filter (fun id => id ≠ pid)).map
        (fun id => distinctRows d ((((arenaAfterSplit d s pid si).set
          s.nodes.length lpr.1).set (s.nodes.length + 1) rpr.1).getD id
          default).sample_indices - 1))
        = ((s.splittable_nodes.filter (fun id => id ≠ pid)).map
        (fun id => distinctRows d
          ((s.nodes.getD id default)).sample_indices - 1)) := by
      refine List.map_congr_left ?_
      intro id hid
      have hm := List.mem_filter.mp hid
      have hne : id ≠ pid := by simpa using hm.2
      have hlt : id < s.nodes.length := (hsplit id hm.1).1
      rw [hgetLow id hlt, arena_getD_other d s pid si id hne hlt]
    rw [hqmap]
    have hold : (s.splittable_nodes.map
        (fun id => distinctRows d
          ((s.nodes.getD id default)).sample_indices - 1)).sum
        = distinctRows d ((s.nodes.getD pid default)).sample_indices - 1
          + ((s.splittable_nodes.filter (fun id => decide (id ≠ pid))).map
            (fun id => distinctRows d
              ((s.nodes.getD id default)).sample_indices - 1)).sum :=
      filter_ne_map_sum
        (fun id => distinctRows d ((s.nodes.getD id default)).sample_indices
          - 1) hnodup hpid
    rw [hold]
    have hno : ¬ false = true := by simp
    cases hb1 : lpr.2 <;> cases hb2 : rpr.2
    · rw [if_neg hno, if_neg hno]
      simp only [List.map_nil, List.sum_nil]
      omega
    · rw [if_neg hno, if_pos rfl]
      simp only [List.map_nil, List.sum_nil, List.map_cons, List.sum_cons]
      rw [hgetR, hRsamp]
      omega
    · rw [if_pos rfl, if_neg hno]
      simp only [List.map_nil, List.sum_nil, List.map_cons, List.sum_cons]
      rw [hgetL, hLsamp]
      omega
    · rw [if_pos rfl, if_pos rfl]
      simp only [List.map_cons, List.map_nil, List.sum_cons, List.sum_nil]
      rw [hgetL, hLsamp, hgetR, hRsamp]
      omega

/-- One effective growth step either stops growth or strictly decreases the
distinct-row termination measure. -/
theorem measure_growStep (d : TrainingData) (p : GrowerParams)
    {s : GrowerState} (hinv : GrowerInv d p s)
    (hnd : 1 ≤ p.min_samples_leaf ∨ 0 < p.min_gain_to_split)
    (hcan : can_split_further s = true) :
    can_split_further (growStep d p s) = false
      ∨ growMeasure d (growStep d p s) + 1 ≤ growMeasure d s := by
  obtain ⟨pid, hsel⟩ := selectBest_ne_none (can_split_iff.mp hcan)
  have hpid := selectBest_mem hsel
  obtain ⟨si, hsi, -, -⟩ := (hinv.2.1 pid hpid).2.2.2.2
  have hsi2 : (s.nodes.getD pid default).split_info = some si := hsi
  rw [growStep, split_next, hsel]
  dsimp only
  rw [hsi2]
  dsimp only
  exact measure_splitApplied d p s pid si hinv hpid hsi hnd

/-- While growth continues, the distinct-row measure shrinks by at least
one per step. -/
theorem measure_growSteps (d : TrainingData) (p : GrowerParams)
    (k : ℕ) {s : GrowerState} (hinv : GrowerInv d p s)
    (hnd : 1 ≤ p.min_samples_leaf ∨ 0 < p.min_gain_to_split)
    (hcan : can_split_further (growSteps d p k s) = true) :
    growMeasure d (growSteps d p k s) + k ≤ growMeasure d s := by
  induction k generalizing s with
  | zero => exact Nat.le_refl _
  | succ n ih =>
    have hcan0 : can_split_further s = true := by
      by_contra h0
      have h0f : can_split_further s = false := by
        cases hb : can_split_further s
        · rfl
        · exact absurd hb h0
      rw [growSteps, growStep_of_not_can d p h0f,
        growSteps_of_not_can d p n h0f] at hcan
      exact h0 hcan
    rcases measure_growStep d p hinv hnd hcan0 with hstop | hle
    · rw [growSteps, growSteps_of_not_can d p n hstop] at hcan
      rw [hcan] at hstop
      exact Bool.noConfusion hstop
    · have hih := ih (growerInv_step d p s hinv)
        (by rw [growSteps] at hcan; exact hcan)
      rw [growSteps]
      omega

/-- With no leaf cap, a splittable root puts the initial measure strictly
below the total number of distinct rows. -/
theorem measure_init_lt (d : TrainingData) (p : GrowerParams)
    (hml : p.max_leaf_nodes = none)
    (hc0 : can_split_further (initGrower d p) = true)
    (hnd : 1 ≤ p.min_samples_leaf ∨ 0 < p.min_gain_to_split) :
    growMeasure d (initGrower d p)
      < distinctRows d (List.range d.n_samples) := by
  have hif : (match p.max_leaf_nodes with
      | some m => decide (m ≤ 1)
      | none => false) = false := by
    rw [hml]
  have hsamp : (processNode d p
      { sample_indices := List.range d.n_samples, depth := 0,
        sum_gradients := gradSum d (List.range d.n_samples),
        sum_hessians := hessSum d (List.range d.n_samples),
        split_info := none, value := none, weight := none,
        left_child := none,
        right_child := none }).1.sample_indices
      = List.range d.n_samples :=
    processNode_sample_indices d p _
  have hcases := processNode_cases d p
    { sample_indices := List.range d.n_samples, depth := 0,
      sum_gradients := gradSum d (List.range d.n_samples),
      sum_hessians := hessSum d (List.range d.n_samples),
      split_info := none, value := none, weight := none,
      left_child := none, right_child := none }
  rw [initGrower] at hc0 ⊢
  rw [hif] at hc0 ⊢
  have hno2 : ¬ false = true := by simp
  rw [if_neg hno2] at hc0 ⊢
  revert hc0
  generalize hpr : processNode d p
      { sample_indices := List.range d.n_samples, depth := 0,
        sum_gradients := gradSum d (List.range d.n_samples),
        sum_hessians := hessSum d (List.range d.n_samples),
        split_info := none, value := none, weight := none,
        left_child := none, right_child := none } = pr
  intro hc0
  dsimp only at hc0 ⊢
  rw [hpr] at hsamp hcases
  cases hb : pr.2
  · rw [can_split_iff] at hc0
    simp [hb] at hc0
  · rcases hcases with ⟨-, si, hfind, hgain, -⟩ | ⟨hb2, -, -, -, -⟩
    · have hsides := candidate_sides_nonempty
        (find_node_split_mem hfind) rfl rfl hgain hnd
      have hL : leftIndices d si (List.range d.n_samples) ≠ [] := hsides.1
      have hidxne : List.range d.n_samples ≠ [] := by
        intro h0
        apply hL
        rw [h0, leftIndices]
        rfl
      have hD1 := distinctRows_pos d hidxne
      rw [growMeasure]
      dsimp only
      rw [if_pos rfl]
      simp only [List.map_cons, List.map_nil, List.sum_cons,
        List.sum_nil, List.getD_cons_zero]
      rw [hsamp]
      omega
    · rw [hb] at hb2
      exact Bool.noConfusion hb2

/-- Claim C7.  Tree growth always terminates: when `max_leaf_nodes = m` is
set, `can_split_further` is false after at most `m` calls to `split_next`;
with no cap (and a non-degenerate configuration — at least one sample
required per side, or a positive gain threshold, mirroring the defaults),
it is false after at most as many calls as there are distinct bin-value
rows in the data.  A `growStep` past that point is the identity, so growth
stops for good. -/
theorem growth_terminates (d : TrainingData) (p : GrowerParams) :
    (∀ m, p.max_leaf_nodes = some m →
        can_split_further (growSteps d p m (initGrower d p)) = false)
      ∧ ((1 ≤ p.min_samples_leaf ∨ 0 < p.min_gain_to_split) →
          p.max_leaf_nodes = none →
          can_split_further (growSteps d p
            (distinctRows d (List.range d.n_samples))
            (initGrower d p)) = false) := by
  constructor
  · intro m hm
    exact cap_bound d p m hm
  · intro hnd hml
    cases hc : can_split_further (growSteps d p
        (distinctRows d (List.range d.n_samples)) (initGrower d p))
    · rfl
    · exfalso
      have hc0 : can_split_further (initGrower d p) = true := by
        cases hb : can_split_further (initGrower d p)
        · rw [growSteps_of_not_can d p _ hb] at hc
          rw [hb] at hc
          exact Bool.noConfusion hc
        · rfl
      have hlt := measure_init_lt d p hml hc0 hnd
      have hle := measure_growSteps d p
        (distinctRows d (List.range d.n_samples))
        (growerInv_init d p) hnd hc
      omega

/-- Witness for claim C7 at concrete instances: the scenario configuration
caps leaves at 3 and growth has stopped after 3 steps; the tiny
configuration has no cap, satisfies the non-degeneracy condition, and
growth has stopped within its distinct-row count. -/
theorem growth_terminates_witness :
    can_split_further (growSteps scenarioData scenarioParams 3
        (initGrower scenarioData scenarioParams)) = false
      ∧ tinyParams.max_leaf_nodes = none
      ∧ (1 ≤ tinyParams.min_samples_leaf
          ∨ 0 < tinyParams.min_gain_to_split)
      ∧ can_split_further (growSteps tinyData tinyParams
          (distinctRows tinyData (List.range tinyData.n_samples))
          (initGrower tinyData tinyParams)) = false :=
  ⟨(growth_terminates scenarioData scenarioParams).1 3 rfl, rfl,
    Or.inl (Nat.le_refl 1),
    (growth_terminates tinyData tinyParams).2 (Or.inl (Nat.le_refl 1)) rfl⟩

theorem sampleList_append (l1 l2 : List ℕ) :
    sampleList (l1 ++ l2) = sampleList l1 ++ sampleList l2 := by
  induction l1 with
  | nil => rfl
  | cons c t ih => rw [List.cons_append, sampleList, sampleList, ih,
      List.append_assoc]

theorem sampleList_length (cs : List ℕ) :
    (sampleList cs).length = 100 * cs.length := by
  induction cs with
  | nil => rfl
  | cons c t ih =>
    rw [sampleList, List.length_append, ih, chunkOf, List.length_map,
      List.length_range, List.length_cons]
    ring

/-- The sample range of the scenario decomposes into its 100-blocks. -/
theorem chunked_range (m : ℕ) :
    List.range (100 * m) = sampleList (List.range m) := by
  induction m with
  | zero => rfl
  | succ n ih =>
    rw [Nat.mul_succ, List.range_add, ih]
    rw [show List.range (n + 1) = List.range n ++ [n] from List.range_succ n]
    rw [sampleList_append, sampleList, sampleList, List.append_nil, chunkOf]

theorem scen_binned0 (c r : ℕ) (hr : r < 100) :
    scenarioData.binned (100 * c + r) 0 = c / 10 := by
  have h : scenarioData.binned (100 * c + r) 0 = (100 * c + r) / 1000 := rfl
  rw [h]
  omega

theorem scen_binned1 (c r : ℕ) (hr : r < 100) :
    scenarioData.binned (100 * c + r) 1 = c % 10 := by
  have h : scenarioData.binned (100 * c + r) 1
      = (100 * c + r) / 100 % 10 := rfl
  rw [h]
  omega

theorem scen_gradient (c r : ℕ) (hr : r < 100) :
    scenarioData.gradient (100 * c + r) = ((scenGz c : ℤ) : ℚ) := by
  have h : scenarioData.gradient (100 * c + r)
      = if (100 * c + r) / 1000 ≤ 5 then (-1 : ℚ)
        else if (100 * c + r) / 100 % 10 ≤ 3 then -1 else 1 := rfl
  have h1 : (100 * c + r) / 1000 = c / 10 := by omega
  have h2 : (100 * c + r) / 100 % 10 = c % 10 := by omega
  rw [h, h1, h2, scenGz]
  by_cases hc1 : c / 10 ≤ 5
  · rw [if_pos hc1, if_pos hc1]
    simp
  · rw [if_neg hc1, if_neg hc1]
    by_cases hc2 : c % 10 ≤ 3
    · rw [if_pos hc2, if_pos hc2]
      simp
    · rw [if_neg hc2, if_neg hc2]
      simp

/-- Block-level evaluation of a gradient sum in the scenario. -/
theorem scen_gradSum_chunks (cs : List ℕ) :
    gradSum scenarioData (sampleList cs)
      = (((cs.map (fun c => 100 * scenGz c)).sum : ℤ) : ℚ) := by
  induction cs with
  | nil => simp [sampleList, gradSum]
  | cons c t ih =>
    rw [sampleList, gradSum_append, ih]
    have hc : gradSum scenarioData (chunkOf c)
        = ((100 * scenGz c : ℤ) : ℚ) := by
      rw [gradSum_eq_map_sum, chunkOf, List.map_map]
      rw [List.map_congr_left
        (f := scenarioData.gradient ∘ fun r => 100 * c + r)
        (g := fun _ : ℕ => ((scenGz c : ℤ) : ℚ))
        (fun r hr => scen_gradient c r (List.mem_range.mp hr))]
      rw [map_range_const, List.sum_replicate]
      push_cast
      rw [nsmul_eq_mul]
      ring
    rw [hc, List.map_cons, List.sum_cons]
    push_cast
    ring

/-- Block-level evaluation of a hessian sum for a constant-one hessian. -/
theorem sampleList_hessSum_one (d : TrainingData) (cs : List ℕ)
    (hh : ∀ i, d.hessian i = 1) :
    hessSum d (sampleList cs) = ((100 * cs.length : ℕ) : ℚ) := by
  induction cs with
  | nil => simp [sampleList, hessSum]
  | cons c t ih =>
    rw [sampleList, hessSum_append, ih]
    have hc : hessSum d (chunkOf c) = 100 := by
      rw [hessSum_eq_map_sum, chunkOf, List.map_map]
      rw [List.map_congr_left (f := d.hessian ∘ fun r => 100 * c + r)
        (g := fun _ : ℕ => (1 : ℚ)) (fun r _ => hh _)]
      rw [map_range_const, List.sum_replicate]
      rw [nsmul_eq_mul]
      ring
    rw [hc, List.length_cons]
    push_cast
    ring

/-- A block-constant filter commutes with the block decomposition. -/
theorem sampleList_filter (P Q : ℕ → Bool) (cs : List ℕ)
    (hPQ : ∀ c ∈ cs, ∀ r, r < 100 → P (100 * c + r) = Q c) :
    (sampleList cs).filter P = sampleList (cs.filter Q) := by
  induction cs with
  | nil => rfl
  | cons c t ih =>
    rw [sampleList, List.filter_append,
      ih (fun c hc => hPQ c (List.mem_cons_of_mem _ hc))]
    have hchunk : (chunkOf c).filter P
        = if Q c = true then chunkOf c else [] := by
      rw [chunkOf, List.filter_map]
      by_cases hQ : Q c = true
      · rw [if_pos hQ, List.filter_eq_self.mpr]
        intro r hr
        show P (100 * c + r) = true
        rw [hPQ c (List.mem_cons_self _ _) r (List.mem_range.mp hr)]
        exact hQ
      · rw [if_neg hQ]
        have hfil : (List.range 100).filter
            (P ∘ fun r => 100 * c + r) = [] := by
          rw [List.filter_eq_nil_iff]
          intro r hr
          show ¬ P (100 * c + r) = true
          rw [hPQ c (List.mem_cons_self _ _) r (List.mem_range.mp hr)]
          exact hQ
        rw [hfil, List.map_nil]
    by_cases hQ : Q c = true
    · rw [hchunk, if_pos hQ, List.filter_cons_of_pos hQ, sampleList]
    · rw [hchunk, if_neg hQ, List.filter_cons_of_neg (by simp [hQ]),
        List.nil_append]

theorem scenP_msl : scenarioParams.min_samples_leaf = 20 := rfl

theorem scenP_l2 : scenarioParams.l2_regularization = 0 := rfl

theorem scenP_mgs : scenarioParams.min_gain_to_split = 1 / 100 := rfl

theorem scenP_shr : scenarioParams.shrinkage = 1 / 2 := rfl

theorem scenP_eps : scenarioParams.eps = 0 := rfl

theorem scenP_mln : scenarioParams.max_leaf_nodes = some 3 := rfl

theorem scenP_md : scenarioParams.max_depth = none := rfl

theorem scenD_f : scenarioData.n_features = 2 := rfl

theorem scenD_n : scenarioData.n_samples = 10000 := rfl

/-- Block-level form of a scenario histogram. -/
theorem scen_hist (cs : List ℕ) (f : ℕ) (hf : f = 0 ∨ f = 1) :
    build_histogram scenarioData scenarioParams (sampleList cs) f
      = (List.range 11).map (fun b =>
          (((((cs.filter (fun c =>
                (if f = 0 then c / 10 else c % 10) = b)).map
                (fun c => 100 * scenGz c)).sum : ℤ) : ℚ),
           (((100 * (cs.filter (fun c =>
                (if f = 0 then c / 10 else c % 10) = b)).length : ℕ) : ℚ)),
           100 * (cs.filter (fun c =>
                (if f = 0 then c / 10 else c % 10) = b)).length)) := by
  rw [build_histogram_eq]
  rw [show scenarioParams.n_bins = 11 from rfl]
  refine List.map_congr_left ?_
  intro b hb
  have hfil : (sampleList cs).filter
      (fun i => scenarioData.binned i f = b)
      = sampleList (cs.filter (fun c =>
          (if f = 0 then c / 10 else c % 10) = b)) := by
    refine sampleList_filter _ _ cs ?_
    intro c hc r hr
    rcases hf with hf0 | hf1
    · subst hf0
      show decide (scenarioData.binned (100 * c + r) 0 = b)
        = decide ((if 0 = 0 then c / 10 else c % 10) = b)
      rw [scen_binned0 c r hr, if_pos rfl]
    · subst hf1
      show decide (scenarioData.binned (100 * c + r) 1 = b)
        = decide ((if 1 = 0 then c / 10 else c % 10) = b)
      rw [scen_binned1 c r hr, if_neg (by omega)]
  rw [hfil, scen_gradSum_chunks,
    sampleList_hessSum_one _ _ (fun i => rfl), sampleList_length]

set_option maxRecDepth 4000 in
theorem scen_hist_root0 :
    build_histogram scenarioData scenarioParams (List.range 10000) 0
      = [(-1000, 1000, 1000), (-1000, 1000, 1000), (-1000, 1000, 1000),
         (-1000, 1000, 1000), (-1000, 1000, 1000), (-1000, 1000, 1000),
         (200, 1000, 1000), (200, 1000, 1000), (200, 1000, 1000),
         (200, 1000, 1000), (0, 0, 0)] := by
  rw [show List.range 10000 = sampleList (List.range 100) from
    chunked_range 100]
  rw [scen_hist (List.range 100) 0 (Or.inl rfl)]
  decide

set_option maxRecDepth 4000 in
theorem scen_hist_root1 :
    build_histogram scenarioData scenarioParams (List.range 10000) 1
      = [(-1000, 1000, 1000), (-1000, 1000, 1000), (-1000, 1000, 1000),
         (-1000, 1000, 1000), (-200, 1000, 1000), (-200, 1000, 1000),
         (-200, 1000, 1000), (-200, 1000, 1000), (-200, 1000, 1000),
         (-200, 1000, 1000), (0, 0, 0)] := by
  rw [show List.range 10000 = sampleList (List.range 100) from
    chunked_range 100]
  rw [scen_hist (List.range 100) 1 (Or.inr rfl)]
  decide

set_option maxRecDepth 4000 in
theorem scen_hist_left0 :
    build_histogram scenarioData scenarioParams (sampleList (List.range 60)) 0
      = [(-1000, 1000, 1000), (-1000, 1000, 1000), (-1000, 1000, 1000),
         (-1000, 1000, 1000), (-1000, 1000, 1000), (-1000, 1000, 1000),
         (0, 0, 0), (0, 0, 0), (0, 0, 0), (0, 0, 0), (0, 0, 0)] := by
  rw [scen_hist (List.range 60) 0 (Or.inl rfl)]
  decide

set_option maxRecDepth 4000 in
theorem scen_hist_left1 :
    build_histogram scenarioData scenarioParams (sampleList (List.range 60)) 1
      = [(-600, 600, 600), (-600, 600, 600), (-600, 600, 600),
         (-600, 600, 600), (-600, 600, 600), (-600, 600, 600),
         (-600, 600, 600), (-600, 600, 600), (-600, 600, 600),
         (-600, 600, 600), (0, 0, 0)] := by
  rw [scen_hist (List.range 60) 1 (Or.inr rfl)]
  decide

set_option maxRecDepth 4000 in
theorem scen_hist_right0 :
    build_histogram scenarioData scenarioParams (sampleList rchunksEx) 0
      = [(0, 0, 0), (0, 0, 0), (0, 0, 0), (0, 0, 0), (0, 0, 0), (0, 0, 0),
         (200, 1000, 1000), (200, 1000, 1000), (200, 1000, 1000),
         (200, 1000, 1000), (0, 0, 0)] := by
  rw [scen_hist rchunksEx 0 (Or.inl rfl)]
  decide

set_option maxRecDepth 4000 in
theorem scen_hist_right1 :
    build_histogram scenarioData scenarioParams (sampleList rchunksEx) 1
      = [(-400, 400, 400), (-400, 400, 400), (-400, 400, 400),
         (-400, 400, 400), (400, 400, 400), (400, 400, 400),
         (400, 400, 400), (400, 400, 400), (400, 400, 400),
         (400, 400, 400), (0, 0, 0)] := by
  rw [scen_hist rchunksEx 1 (Or.inr rfl)]
  decide

set_option maxRecDepth 4000 in
theorem scen_root_gradSum :
    gradSum scenarioData (List.range 10000) = -5200 := by
  rw [show List.range 10000 = sampleList (List.range 100) from
    chunked_range 100]
  rw [scen_gradSum_chunks]
  rw [show ((List.range 100).map (fun c => 100 * scenGz c)).sum
    = (-5200 : ℤ) from by decide]
  norm_num

set_option maxRecDepth 4000 in
theorem scen_root_hessSum :
    hessSum scenarioData (List.range 10000) = 10000 := by
  rw [show List.range 10000 = sampleList (List.range 100) from
    chunked_range 100]
  rw [sampleList_hessSum_one _ _ (fun i => rfl), List.length_range]
  norm_num

set_option maxRecDepth 4000 in
/-- The root's split finder returns the feature-0 bin-5 cut. -/
theorem scen_root_find :
    find_node_split scenarioData scenarioParams (List.range 10000)
      (-5200) 10000 10000 = some si0ex := by
  rw [find_node_split, nodeCandidates, scenD_f,
    show List.range 2 = [0, 1] from rfl]
  rw [List.foldr_cons, List.foldr_cons, List.foldr_nil]
  rw [featureCandidates, featureCandidates, scen_hist_root0,
    scen_hist_root1]
  norm_num [scanBins, split_gain, scenP_msl, scenP_l2, scenP_eps]
  norm_num [betterSplit, si0ex]

set_option maxRecDepth 4000 in
/-- The left child's split finder: every cut has gain 0 and the first
admissible cut is kept. -/
theorem scen_left_find :
    find_node_split scenarioData scenarioParams (sampleList (List.range 60))
      (-6000) 6000 6000 = some siLex := by
  rw [find_node_split, nodeCandidates, scenD_f,
    show List.range 2 = [0, 1] from rfl]
  rw [List.foldr_cons, List.foldr_cons, List.foldr_nil]
  rw [featureCandidates, featureCandidates, scen_hist_left0,
    scen_hist_left1]
  norm_num [scanBins, split_gain, scenP_msl, scenP_l2, scenP_eps]
  norm_num [betterSplit, siLex]

set_option maxRecDepth 4000 in
/-- The right child's split finder returns the feature-1 bin-3 cut. -/
theorem scen_right_find :
    find_node_split scenarioData scenarioParams (sampleList rchunksEx)
      800 4000 4000 = some siRex := by
  rw [find_node_split, nodeCandidates, scenD_f,
    show List.range 2 = [0, 1] from rfl]
  rw [List.foldr_cons, List.foldr_cons, List.foldr_nil]
  rw [featureCandidates, featureCandidates, scen_hist_right0,
    scen_hist_right1]
  norm_num [scanBins, split_gain, scenP_msl, scenP_l2, scenP_eps]
  norm_num [betterSplit, siRex]

/-- The first split's left partition: blocks with feature-0 code at most
5, i.e. the first 6000 samples. -/
theorem scen_leftIdx :
    leftIndices scenarioData si0ex (List.range 10000)
      = sampleList (List.range 60) := by
  rw [leftIndices]
  rw [show List.range 10000 = sampleList (List.range 100) from
    chunked_range 100]
  have hPQ : ∀ c ∈ List.range 100, ∀ r, r < 100 →
      (fun i => decide (scenarioData.binned i si0ex.feature_idx
        ≤ si0ex.bin_idx)) (100 * c + r)
      = (fun c => decide (c / 10 ≤ 5)) c := by
    intro c hc r hr
    show decide (scenarioData.binned (100 * c + r) si0ex.feature_idx
      ≤ si0ex.bin_idx) = decide (c / 10 ≤ 5)
    rw [show si0ex.feature_idx = 0 from rfl,
      show si0ex.bin_idx = 5 from rfl, scen_binned0 c r hr]
  rw [sampleList_filter
    (fun i => decide (scenarioData.binned i si0ex.feature_idx
      ≤ si0ex.bin_idx))
    (fun c => decide (c / 10 ≤ 5)) (List.range 100) hPQ]
  rw [show (List.range 100).filter (fun c => decide (c / 10 ≤ 5))
    = List.range 60 from by decide]

/-- The first split's right partition: blocks with feature-0 code above
5. -/
theorem scen_rightIdx :
    rightIndices scenarioData si0ex (List.range 10000)
      = sampleList rchunksEx := by
  rw [rightIndices]
  rw [show List.range 10000 = sampleList (List.range 100) from
    chunked_range 100]
  have hPQ : ∀ c ∈ List.range 100, ∀ r, r < 100 →
      (fun i => decide (¬ scenarioData.binned i si0ex.feature_idx
        ≤ si0ex.bin_idx)) (100 * c + r)
      = (fun c => decide (¬ c / 10 ≤ 5)) c := by
    intro c hc r hr
    show decide (¬ scenarioData.binned (100 * c + r) si0ex.feature_idx
      ≤ si0ex.bin_idx) = decide (¬ c / 10 ≤ 5)
    rw [show si0ex.feature_idx = 0 from rfl,
      show si0ex.bin_idx = 5 from rfl, scen_binned0 c r hr]
  rw [sampleList_filter
    (fun i => decide (¬ scenarioData.binned i si0ex.feature_idx
      ≤ si0ex.bin_idx))
    (fun c => decide (¬ c / 10 ≤ 5)) (List.range 100) hPQ]
  rfl

theorem scen_not_false_true : ¬ false = true := fun h => Bool.noConfusion h

/-- The scenario has no depth limit, so the depth check never fires. -/
theorem scenP_depth_check (nd : TreeNode) :
    (match scenarioParams.max_depth with
      | some md => decide (md ≤ nd.depth)
      | none => false) = false := rfl

theorem scen_gain_root_ok : ¬ si0ex.gain < scenarioParams.min_gain_to_split := by
  rw [scenP_mgs]
  norm_num [si0ex]

theorem scen_gain_left_low : siLex.gain < scenarioParams.min_gain_to_split := by
  rw [scenP_mgs]
  norm_num [siLex]

theorem scen_gain_right_ok : ¬ siRex.gain < scenarioParams.min_gain_to_split := by
  rw [scenP_mgs]
  norm_num [siRex]

/-- Generic evaluation of `processNode` when there is no depth limit and
the best split's gain clears the threshold. -/
theorem processNode_of_splittable (d : TrainingData) (p : GrowerParams)
    (nd : TreeNode) (si : SplitInfo) (n : ℕ)
    (hmd : p.max_depth = none)
    (hn : nd.sample_indices.length = n)
    (hfind : find_node_split d p nd.sample_indices nd.sum_gradients
      nd.sum_hessians n = some si)
    (hgain : ¬ si.gain < p.min_gain_to_split) :
    processNode d p nd = ({ nd with split_info := some si }, true) := by
  rw [processNode, hmd]
  rw [if_neg (fun h => Bool.noConfusion h)]
  rw [hn, hfind]
  dsimp only
  rw [if_neg hgain]

/-- Generic evaluation of `processNode` when there is no depth limit and
the best split's gain is below the threshold: the node is finalized. -/
theorem processNode_of_leaf (d : TrainingData) (p : GrowerParams)
    (nd : TreeNode) (si : SplitInfo) (n : ℕ)
    (hmd : p.max_depth = none)
    (hn : nd.sample_indices.length = n)
    (hfind : find_node_split d p nd.sample_indices nd.sum_gradients
      nd.sum_hessians n = some si)
    (hgain : si.gain < p.min_gain_to_split) :
    processNode d p nd
      = (finalize_leaf p { nd with split_info := some si }, false) := by
  rw [processNode, hmd]
  rw [if_neg (fun h => Bool.noConfusion h)]
  rw [hn, hfind]
  dsimp only
  rw [if_pos hgain]

/-- Generic evaluation of grower initialization when the leaf cap is not
already reached at the root. -/
theorem initGrower_no_cap (d : TrainingData) (p : GrowerParams)
    (hcap : (match p.max_leaf_nodes with
      | some m => decide (m ≤ 1)
      | none => false) = false)
    (nd : TreeNode) (b : Bool)
    (hpr : processNode d p
      { sample_indices := List.range d.n_samples, depth := 0,
        sum_gradients := gradSum d (List.range d.n_samples),
        sum_hessians := hessSum d (List.range d.n_samples),
        split_info := none, value := none, weight := none,
        left_child := none, right_child := none } = (nd, b)) :
    initGrower d p = initState nd b := by
  rw [initGrower, hcap]
  rw [if_neg (fun h => Bool.noConfusion h)]
  dsimp only
  rw [hpr]
  rfl

/-- Generic evaluation of `split_next` once the popped node and its
recorded split are known. -/
theorem split_next_eq (d : TrainingData) (p : GrowerParams)
    (s : GrowerState) (pid : ℕ) (si : SplitInfo)
    (hsel : selectBest s = some pid)
    (hsi : (s.nodes.getD pid default).split_info = some si) :
    split_next d p s = some (splitApplied d p s pid si) := by
  rw [split_next, hsel]
  dsimp only
  rw [hsi]

/-- Generic evaluation of `splitApplied` below the leaf cap. -/
theorem splitApplied_noncap (d : TrainingData) (p : GrowerParams)
    (s : GrowerState) (pid : ℕ) (si : SplitInfo)
    (hcap : capReached p s pid = false) :
    splitApplied d p s pid si
      = (noncapState d p s pid si, s.nodes.length, s.nodes.length + 1) := by
  rw [splitApplied, hcap]
  rw [if_neg (fun h => Bool.noConfusion h)]
  rfl

/-- Generic evaluation of `splitApplied` at the leaf cap. -/
theorem splitApplied_cap (d : TrainingData) (p : GrowerParams)
    (s : GrowerState) (pid : ℕ) (si : SplitInfo)
    (hcap : capReached p s pid = true) :
    splitApplied d p s pid si
      = (capState d p s pid si, s.nodes.length, s.nodes.length + 1) := by
  rw [splitApplied, hcap]
  rw [if_pos rfl]
  rfl

/-- Processing the scenario root: its best split is recorded and it is
classified splittable. -/
theorem scen_rootProc :
    processNode scenarioData scenarioParams
      { sample_indices := List.range 10000, depth := 0,
        sum_gradients := -5200, sum_hessians := 10000,
        split_info := none, value := none, weight := none,
        left_child := none, right_child := none }
      = (scenRootN, true) := by
  refine Eq.trans (processNode_of_splittable scenarioData scenarioParams
    { sample_indices := List.range 10000, depth := 0,
      sum_gradients := -5200, sum_hessians := 10000,
      split_info := none, value := none, weight := none,
      left_child := none, right_child := none } si0ex 10000 scenP_md
    (by dsimp only
        exact List.length_range 10000)
    (by dsimp only
        exact scen_root_find)
    scen_gain_root_ok) ?_
  dsimp only
  unfold scenRootN
  rfl

/-- Initialization of the scenario grower. -/
theorem scen_S0 : scenS0 = scenS0ex := by
  have hpr : processNode scenarioData scenarioParams
      { sample_indices := List.range scenarioData.n_samples, depth := 0,
        sum_gradients := gradSum scenarioData
          (List.range scenarioData.n_samples),
        sum_hessians := hessSum scenarioData
          (List.range scenarioData.n_samples),
        split_info := none, value := none, weight := none,
        left_child := none, right_child := none } = (scenRootN, true) := by
    rw [scenD_n, scen_root_gradSum, scen_root_hessSum]
    exact scen_rootProc
  rw [scenS0, initGrower_no_cap scenarioData scenarioParams rfl
    scenRootN true hpr]
  rfl


/-- Processing the scenario's left child: gain 0 is below the threshold,
so it is finalized. -/
theorem scen_procL :
    processNode scenarioData scenarioParams
      (childNode 1 (sampleList (List.range 60)) (-6000) 6000)
      = (scenLnode, false) := by
  have h := processNode_of_leaf scenarioData scenarioParams
    (childNode 1 (sampleList (List.range 60)) (-6000) 6000) siLex 6000
    scenP_md
    (by show (sampleList (List.range 60)).length = 6000
        rw [sampleList_length, List.length_range])
    scen_left_find scen_gain_left_low
  rw [h, finalize_leaf]
  norm_num [leaf_value, leaf_weight, scenP_shr, scenP_l2, scenP_eps,
    scenLnode, childNode, siLex, Prod.mk.injEq]

/-- Processing the scenario's right child: its best split is recorded and
it stays splittable. -/
theorem scen_procR :
    processNode scenarioData scenarioParams
      (childNode 1 (sampleList rchunksEx) 800 4000)
      = (scenRnode, true) := by
  have h := processNode_of_splittable scenarioData scenarioParams
    (childNode 1 (sampleList rchunksEx) 800 4000) siRex 4000
    scenP_md
    (by show (sampleList rchunksEx).length = 4000
        rw [sampleList_length]
        rw [show rchunksEx.length = 40 from by decide])
    scen_right_find scen_gain_right_ok
  rw [h]
  rfl

set_option maxRecDepth 4000 in
/-- The scenario's first split: children 1 and 2 are created, the left is
finalized, the right stays splittable. -/
theorem scen_S1 :
    split_next scenarioData scenarioParams scenS0
      = some (scenS1ex, 1, 2) := by
  rw [scen_S0, split_next_eq scenarioData scenarioParams scenS0ex 0 si0ex
    rfl rfl, splitApplied_noncap scenarioData scenarioParams scenS0ex 0
    si0ex (by decide)]
  norm_num [noncapState, noncapNodes, noncapSplittable, noncapFinalized,
    scenS0ex, scenRootN, arenaAfterSplit, scen_leftIdx,
    scen_rightIdx, scen_procL, scen_procR, scenS1ex, scenRootS,
    List.getD_cons_zero, List.getD_cons_succ, List.set_cons_zero,
    List.set_cons_succ, List.cons_append, List.nil_append,
    List.filter_cons, List.filter_nil,
    show si0ex.gradient_left = -6000 from rfl,
    show si0ex.hessian_left = 6000 from rfl,
    show si0ex.gradient_right = 800 from rfl,
    show si0ex.hessian_right = 4000 from rfl,
    Prod.mk.injEq, Option.some.injEq]

/-- The scenario state after the first split. -/
theorem scen_S1state : scenS1 = scenS1ex := by
  rw [scenS1, growStep, scen_S1]

set_option maxRecDepth 4000 in
/-- The scenario's second split: it reaches the `max_leaf_nodes = 3` cap,
so both grandchildren are finalized and the splittable set empties. -/
theorem scen_S2 :
    split_next scenarioData scenarioParams scenS1
      = some (scenS2ex, 3, 4) := by
  rw [scen_S1state, split_next_eq scenarioData scenarioParams scenS1ex 2
    siRex rfl rfl, splitApplied_cap scenarioData scenarioParams scenS1ex 2
    siRex (by decide)]
  norm_num [capState, scenS1ex, scenRootS, scenLnode, scenRnode, scenRnodeS,
    arenaAfterSplit, finalizeMany, finalize_leaf, leaf_value, leaf_weight,
    scenP_shr, scenP_l2, scenP_eps, scenS2ex, scenRLnode, scenRRnode,
    childNode,
    List.getD_cons_zero, List.getD_cons_succ, List.set_cons_zero,
    List.set_cons_succ, List.cons_append, List.nil_append,
    List.filter_cons, List.filter_nil,
    show siRex.gradient_left = -1600 from rfl,
    show siRex.hessian_left = 1600 from rfl,
    show siRex.gradient_right = 2400 from rfl,
    show siRex.hessian_right = 2400 from rfl,
    Prod.mk.injEq, Option.some.injEq]

/-- The scenario state after the second split. -/
theorem scen_S2state : scenS2 = scenS2ex := by
  rw [scenS2, growStep, scen_S2]

/-- Witness for claim C10 at a concrete instance: two leaves both touching
index 2, index 1 untouched. -/
theorem update_raw_predictions_adds_witness :
    (2 < ([10, 20, 30] : List ℚ).length)
    ∧ ((update_raw_predictions [(2, [0, 2]), (3, [2])] [10, 20, 30]).getD 2 0
        = ([10, 20, 30] : List ℚ).getD 2 0
          + (([(2, [0, 2]), (3, [2])] : List (ℚ × List ℕ)).map
              (fun ld => (ld.2.count 2 : ℚ) * ld.1)).sum
      ∧ ((∀ ld ∈ ([(2, [0, 2]), (3, [2])] : List (ℚ × List ℕ)), 2 ∉ ld.2) →
        (update_raw_predictions [(2, [0, 2]), (3, [2])] [10, 20, 30]).getD 2 0
          = ([10, 20, 30] : List ℚ).getD 2 0)) :=
  ⟨by norm_num,
    update_raw_predictions_adds [(2, [0, 2]), (3, [2])] [10, 20, 30] 2
      (by norm_num)⟩

/-- C1: in the scenario — 10,000 samples, 2 features binned into 11
levels, gradients equal to the target of `f(x) = -1 if x0 <= 5 else (-1 if
x1 <= 3 else +1)`, constant hessian 1, `max_leaf_nodes = 3`, `shrinkage =
0.5` — the root's best split is on feature 0 at bin 5; the first
`split_next` creates children 1 (left) and 2 (right), the left child is
finalized with its best gain below `min_gain_to_split`, and the right
child's best split is on feature 1 at bin 3 with gain above 1; the second
`split_next` creates children 3 and 4, after which `can_split_further` is
false and the leaf weights of (left, right-left, right-right) are
(-0.5, -0.5, +0.5). -/
theorem scenario_grow_tree :
    (nodeAt scenS0 0).split_info = some si0ex
    ∧ si0ex.feature_idx = 0
    ∧ si0ex.bin_idx = 5
    ∧ can_split_further scenS0 = true
    ∧ split_next scenarioData scenarioParams scenS0 = some (scenS1, 1, 2)
    ∧ (nodeAt scenS1 0).left_child = some 1
    ∧ (nodeAt scenS1 0).right_child = some 2
    ∧ (∃ si, (nodeAt scenS1 1).split_info = some si
        ∧ si.gain < scenarioParams.min_gain_to_split)
    ∧ 1 ∈ scenS1.finalized_leaves
    ∧ (∃ si, (nodeAt scenS1 2).split_info = some si
        ∧ si.feature_idx = 1 ∧ si.bin_idx = 3 ∧ 1 < si.gain)
    ∧ can_split_further scenS1 = true
    ∧ split_next scenarioData scenarioParams scenS1 = some (scenS2, 3, 4)
    ∧ (nodeAt scenS2 2).left_child = some 3
    ∧ (nodeAt scenS2 2).right_child = some 4
    ∧ can_split_further scenS2 = false
    ∧ (nodeAt scenS2 1).weight = some (-(1/2))
    ∧ (nodeAt scenS2 3).weight = some (-(1/2))
    ∧ (nodeAt scenS2 4).weight = some (1/2) := by
  refine ⟨?_, rfl, rfl, ?_, ?_, ?_, ?_, ?_, ?_, ?_, ?_, ?_, ?_, ?_, ?_,
    ?_, ?_, ?_⟩
  · rw [scen_S0]
    rfl
  · rw [scen_S0]
    rfl
  · rw [scen_S1state]
    exact scen_S1
  · rw [scen_S1state]
    rfl
  · rw [scen_S1state]
    rfl
  · rw [scen_S1state]
    exact ⟨siLex, rfl, scen_gain_left_low⟩
  · rw [scen_S1state]
    exact List.mem_singleton.mpr rfl
  · rw [scen_S1state]
    exact ⟨siRex, rfl, rfl, rfl, by norm_num [siRex]⟩
  · rw [scen_S1state]
    rfl
  · rw [scen_S2state]
    exact scen_S2
  · rw [scen_S2state]
    rfl
  · rw [scen_S2state]
    rfl
  · rw [scen_S2state]
    rfl
  · rw [scen_S2state]
    rfl
  · rw [scen_S2state]
    rfl
  · rw [scen_S2state]
    rfl

/-- Counterexample for claim C3's weight clause: the scenario's left child
(node 1) is a finalized leaf with sums `G = -6000`, `H = 6000`, so the
claimed formula `-shrinkage * G / (H + l2_regularization + eps)` evaluates
to `+1/2`; but the recorded leaf weight is `-1/2` (the sign the repository's
`test_grow_tree` expects). -/
theorem leaf_weight_sign_counterexample :
    1 ∈ scenS1.finalized_leaves
    ∧ ¬ (nodeAt scenS1 1).weight
        = some (-scenarioParams.shrinkage
              * (nodeAt scenS1 1).sum_gradients
            / ((nodeAt scenS1 1).sum_hessians
                + scenarioParams.l2_regularization + scenarioParams.eps)) := by
  rw [scen_S1state]
  refine ⟨List.mem_singleton.mpr rfl, ?_⟩
  have h1 : nodeAt scenS1ex 1 = scenLnode := rfl
  rw [h1]
  norm_num [scenLnode, scenP_shr, scenP_l2, scenP_eps]

end Pygbm
